import Mathlib

/-!
# Verification of the CocktailBE resilience / caching / streaming core

This file gives a shallow embedding of the core components of the CocktailBE
backend and proves the frozen claims about them:

* `SimpleCache` (src: `utils/cache.js`, shipped as part of `index.js` here):
  an insertion-ordered association list models the JavaScript `Map`
  (JS `Map` iterates in insertion order and `set` on an existing key keeps
  the original position).  Timestamps (`Date.now()`) are passed explicitly
  as `Nat` arguments.
* the resilience helpers (src: `utils/aiHelpers.js`): `retryWithBackoff`,
  `isRetryableError`, `executeWithResilience`.  A producer is modelled as a
  function from the invocation index to the outcome of that invocation;
  backoff delays and sleeps do not influence the returned value or the
  number of invocations and are not modelled.
* the in-memory fallback of the image job queue (src: `queues/imageQueue.js`).
* the streaming recipe pipeline (src: `service/imageAnalysisService.js`):
  `tryParsePartialRecipe` (regex field extraction) and
  `generateCocktailStream` (SSE event emission), plus the cache-hit path of
  `generateCocktail`.
-/

namespace CocktailBE

/-! ## SimpleCache data model (utils/cache.js) -/

/-- One cache entry as stored by `SimpleCache.set`:
`\x7b value, expiry: Date.now() + ttl, createdAt: Date.now() \x7d`. -/
structure CacheEntry (V : Type) where
  value : V
  expiry : Nat
  createdAt : Nat
  deriving Repr, DecidableEq

/-- The `this.stats` counters of `SimpleCache`. -/
structure CacheStats where
  hits : Nat
  misses : Nat
  sets : Nat
  evictions : Nat
  deriving Repr, DecidableEq

/-- The mutable state of a `SimpleCache` instance.  `cache` models the JS
`Map` as an insertion-ordered association list. -/
structure SimpleCache (V : Type) where
  cache : List (String × CacheEntry V)
  maxSize : Nat
  stats : CacheStats
  deriving Repr, DecidableEq

/-- JS `Map.get`: first (and, by construction, only) binding of the key. -/
def mapGet {V : Type} (k : String) : List (String × CacheEntry V) → Option (CacheEntry V)
  | [] => none
  | kv :: rest => if kv.1 = k then some kv.2 else mapGet k rest

/-- JS `Map.set`: replace the value in place if the key is present (keeping
its position in iteration order), otherwise append at the end. -/
def mapSet {V : Type} (k : String) (e : CacheEntry V) :
    List (String × CacheEntry V) → List (String × CacheEntry V)
  | [] => [(k, e)]
  | kv :: rest => if kv.1 = k then (k, e) :: rest else kv :: mapSet k e rest

/-- JS `Map.delete`: remove the binding of the key (keys are unique in a JS
`Map`, so removing the first occurrence is exact). -/
def eraseKey {V : Type} (k : String) :
    List (String × CacheEntry V) → List (String × CacheEntry V)
  | [] => []
  | kv :: rest => if kv.1 = k then rest else kv :: eraseKey k rest

/-- One step of the `evictOldest` scan: the loop body
`if (entry.createdAt < oldestTime) \x7b oldestTime = ...; oldestKey = ... \x7d`.
The accumulator holds `(oldestKey, oldestTime)`; `none` models the initial
`oldestKey = null / oldestTime = Infinity` state. -/
def oldestStep {V : Type} (acc : Option (String × Nat)) (kv : String × CacheEntry V) :
    Option (String × Nat) :=
  match acc with
  | none => some (kv.1, kv.2.createdAt)
  | some (k0, t0) => if kv.2.createdAt < t0 then some (kv.1, kv.2.createdAt) else some (k0, t0)

/-- The scan of `SimpleCache.evictOldest` over the entries in iteration
order, returning the key and `createdAt` of the entry it selects. -/
def findOldest {V : Type} (l : List (String × CacheEntry V)) : Option (String × Nat) :=
  l.foldl oldestStep none

/-- `SimpleCache.evictOldest`: delete the entry found by the scan and bump
the `evictions` counter, guarded by `if (oldestKey)`.  JS truthiness makes
that guard skip both the deletion and the counter bump not only when no
entry was found (`oldestKey === null`) but also when the selected key is
the empty string, which is falsy. -/
def SimpleCache.evictOldest {V : Type} (c : SimpleCache V) : SimpleCache V :=
  match findOldest c.cache with
  | none => c
  | some (k, _) =>
      if k = "" then c
      else { c with cache := eraseKey k c.cache,
                    stats := { c.stats with evictions := c.stats.evictions + 1 } }

/-- `SimpleCache.get(key)` at time `now` (`Date.now()`).  Returns the looked
up value (or `none`) together with the updated cache state.  An entry is
expired when `now > entry.expiry`; an expired entry is deleted lazily and
counted as a miss. -/
def SimpleCache.get {V : Type} (c : SimpleCache V) (k : String) (now : Nat) :
    Option V × SimpleCache V :=
  match mapGet k c.cache with
  | none => (none, { c with stats := { c.stats with misses := c.stats.misses + 1 } })
  | some e =>
      if e.expiry < now then
        (none, { c with cache := eraseKey k c.cache,
                        stats := { c.stats with misses := c.stats.misses + 1 } })
      else
        (some e.value, { c with stats := { c.stats with hits := c.stats.hits + 1 } })

/-- `SimpleCache.set(key, value, ttl)` at time `now`: evict the oldest entry
when at capacity (`size >= maxSize`), then insert
`\x7b value, expiry: now + ttl, createdAt: now \x7d` and bump `sets`. -/
def SimpleCache.set {V : Type} (c : SimpleCache V) (k : String) (v : V) (ttl : Nat)
    (now : Nat) : SimpleCache V :=
  let c1 := if c.maxSize ≤ c.cache.length then c.evictOldest else c
  { c1 with cache := mapSet k ⟨v, now + ttl, now⟩ c1.cache,
            stats := { c1.stats with sets := c1.stats.sets + 1 } }

/-- The `SimpleCache` constructor: `maxSize = options.maxSize || 1000`
(so a falsy `0` is replaced by the default `1000`). -/
def SimpleCache.mk' (V : Type) (maxSize : Nat) : SimpleCache V :=
  { cache := [], maxSize := if maxSize = 0 then 1000 else maxSize,
    stats := ⟨0, 0, 0, 0⟩ }

/-- Apply a list of `set` operations `(key, value, ttl, now)` in order. -/
def applySets {V : Type} (c : SimpleCache V) : List (String × V × Nat × Nat) → SimpleCache V
  | [] => c
  | op :: ops => applySets (c.set op.1 op.2.1 op.2.2.1 op.2.2.2) ops

/-! ## SimpleCache.generateKey (the fingerprint key builder)

The cache keys built by the repository pass `generateKey` an object whose
values are strings or arrays of strings (`\x7b ingredients, flavors,
dietaryNeeds \x7d`), so the value domain is modelled as exactly that.  JS
`Array.prototype.sort()` with no comparator sorts strings
lexicographically; `listLeb` below is that lexicographic comparison
(JS compares UTF-16 code units, the model compares code points; the two
agree on all strings appearing in this repository, differing only beyond
the basic multilingual plane). -/

/-- Lexicographic comparison of character lists. -/
def listLeb : List Char → List Char → Bool
  | [], _ => true
  | _ :: _, [] => false
  | a :: as, b :: bs =>
      if a.toNat < b.toNat then true
      else if b.toNat < a.toNat then false
      else listLeb as bs

/-- Lexicographic comparison of strings (the order used by
`Array.prototype.sort()` on strings). -/
def strLeb (a b : String) : Bool := listLeb a.data b.data

/-- `strLeb` as a relation, for use with `List.insertionSort`. -/
def strLe (a b : String) : Prop := strLeb a b = true

instance : DecidableRel strLe := fun _ _ => inferInstanceAs (Decidable (_ = true))

/-- A parameter value: a plain string or an array of strings. -/
inductive JVal where
  | str (v : String)
  | arr (l : List String)
  deriving Repr, DecidableEq

/-- `[...value].sort()` for an array value; other values are unchanged:
`Array.isArray(value) ? [...value].sort() : value`. -/
def normVal : JVal → JVal
  | .str v => .str v
  | .arr l => .arr (l.insertionSort strLe)

/-- Normalize one binding (the key is untouched). -/
def normPair (kv : String × JVal) : String × JVal := (kv.1, normVal kv.2)

/-- Key order on bindings, used by `Object.keys(obj).sort()`. -/
def keyLe (p q : String × JVal) : Prop := strLe p.1 q.1

instance : DecidableRel keyLe := fun p q => inferInstanceAs (Decidable (strLe p.1 q.1))

/-- Sort the bindings of an object by key (`Object.keys(obj).sort()` and
rebuilding the object in that key order). -/
def sortPairs (l : List (String × JVal)) : List (String × JVal) :=
  l.insertionSort keyLe

/-- `JSON.stringify` of a string (escaping the quote and backslash; the
parameter names and values used by the repository contain neither). -/
def jsonStr (s : String) : String :=
  "\"" ++ String.mk (s.data.foldr
    (fun ch acc => if ch = '"' ∨ ch = '\\' then '\\' :: ch :: acc else ch :: acc) []) ++ "\""

/-- `JSON.stringify` of a value. -/
def jvalStr : JVal → String
  | .str v => jsonStr v
  | .arr l => "[" ++ String.intercalate "," (l.map jsonStr) ++ "]"

/-- `JSON.stringify` of an object given its bindings in insertion order. -/
def jsonStringifyObj (l : List (String × JVal)) : String :=
  "\x7b" ++ String.intercalate "," (l.map fun kv => jsonStr kv.1 ++ ":" ++ jvalStr kv.2) ++ "\x7d"

/-- `SimpleCache.generateKey(obj)`: sort the keys, normalize each value
(sorting array values), and stringify the resulting object. -/
def SimpleCache.generateKey (obj : List (String × JVal)) : String :=
  jsonStringifyObj ((sortPairs obj).map normPair)

/-! ## SimpleCache.getStats -/

/-- Left-pad the fractional hundredths to two digits. -/
def pad2 (n : Nat) : String :=
  if n < 10 then "0" ++ toString n else toString n

/-- The hundredths value of
`(hits / (hits + misses) * 100).toFixed(2)`: the percentage
`hits / (hits + misses) * 100` in hundredths, rounded half-up —
`⌊10000 * hits / (hits + misses) + 1/2⌋` computed exactly in integer
arithmetic (`Number.prototype.toFixed` rounds the binary double to the
nearest decimal, choosing the larger on ties; the model rounds the exact
rational, which agrees on the counter values arising here). -/
def hitRateCent (hits misses : Nat) : Nat :=
  (20000 * hits + (hits + misses)) / (2 * (hits + misses))

/-- The `hitRate` string of `SimpleCache.getStats`:
`hits + misses > 0 ? (hits / (hits + misses) * 100).toFixed(2) : 0`,
then interpolated as a template string with a percent sign appended
(so zero lookups yield the string `0%`, not `0.00%`). -/
def hitRateStr (s : CacheStats) : String :=
  if 0 < s.hits + s.misses then
    toString (hitRateCent s.hits s.misses / 100) ++ "." ++
      pad2 (hitRateCent s.hits s.misses % 100) ++ "%"
  else "0%"

/-- The report returned by `SimpleCache.getStats`. -/
structure StatsReport where
  hits : Nat
  misses : Nat
  sets : Nat
  evictions : Nat
  hitRate : String
  size : Nat
  maxSize : Nat
  deriving Repr, DecidableEq

/-- `SimpleCache.getStats()`. -/
def SimpleCache.getStats {V : Type} (c : SimpleCache V) : StatsReport :=
  { hits := c.stats.hits, misses := c.stats.misses, sets := c.stats.sets,
    evictions := c.stats.evictions, hitRate := hitRateStr c.stats,
    size := c.cache.length, maxSize := c.maxSize }

/-! ## Resilience helpers (utils/aiHelpers.js) -/

/-- The shape of a JS error as inspected by `isRetryableError`:
`error.code` (e.g. `ECONNRESET`), `error.status` (HTTP status of OpenAI
errors; `none` when absent) and `error.message`. -/
structure JsError where
  code : Option String
  status : Option Nat
  message : String
  deriving Repr, DecidableEq

/-- Does `pat` occur at the head of `text`? -/
def matchesAt : List Char → List Char → Bool
  | [], _ => true
  | _ :: _, [] => false
  | a :: as, b :: bs => a = b && matchesAt as bs

/-- `text.includes(pat)` on character lists. -/
def hasSubList (text pat : List Char) : Bool :=
  match text with
  | [] => matchesAt pat []
  | _ :: rest => matchesAt pat text || hasSubList rest pat

/-- `String.prototype.includes`. -/
def hasSub (text pat : String) : Bool := hasSubList text.data pat.data

/-- The status checks of `isRetryableError` inside `if (error.status)`:
429 retries, any 5xx retries, and 502/503/504 retry (the latter check is
subsumed by the 5xx range but present in the source). -/
def statusRetryable : Option Nat → Bool
  | none => false
  | some s =>
      if s = 0 then false
      else if s = 429 then true
      else if 500 ≤ s ∧ s < 600 then true
      else if s = 502 ∨ s = 503 ∨ s = 504 then true
      else false

/-- `isRetryableError(error)`: network errors (`ECONNRESET`/`ETIMEDOUT`),
retryable HTTP statuses, timeout messages, and an overloaded upstream. -/
def isRetryableError (e : JsError) : Bool :=
  if e.code = some "ECONNRESET" ∨ e.code = some "ETIMEDOUT" then true
  else if statusRetryable e.status then true
  else if hasSub e.message "timed out" then true
  else if hasSub e.message "overloaded" then true
  else false

/-- The loop of `retryWithBackoff`
(`for (let attempt = 0; attempt <= maxRetries; attempt++)`).

The producer `fn` maps an invocation index to the outcome of that
invocation of `fn()` (a resolved value or a rejected error); `attempt` is
the current index and `remaining = maxRetries - attempt` the retry budget
still available.  The result is paired with the number of invocations made.
On failure the loop rethrows when `attempt >= maxRetries || !shouldRetry
(error)` — here split into the `remaining = 0` case (the budget is
exhausted, rethrow) and the `remaining > 0` case (rethrow exactly when the
error is not retryable); otherwise it sleeps (delays are irrelevant to the
result and are not modelled) and retries. -/
def retryRun {A : Type} (fn : Nat → Except JsError A) (shouldRetry : JsError → Bool) :
    Nat → Nat → Except JsError A × Nat
  | attempt, 0 =>
    match fn attempt with
    | .ok a => (.ok a, 1)
    | .error e => (.error e, 1)
  | attempt, r + 1 =>
    match fn attempt with
    | .ok a => (.ok a, 1)
    | .error e =>
        if shouldRetry e then
          let rest := retryRun fn shouldRetry (attempt + 1) r
          (rest.1, rest.2 + 1)
        else (.error e, 1)

/-- `retryWithBackoff(fn, \x7b maxRetries, shouldRetry \x7d)` (result and
invocation count). -/
def retryWithBackoff {A : Type} (fn : Nat → Except JsError A)
    (shouldRetry : JsError → Bool) (maxRetries : Nat) : Except JsError A × Nat :=
  retryRun fn shouldRetry 0 maxRetries

/-- `executeWithResilience(fn, \x7b timeout, maxRetries \x7d)`:
`retryWithBackoff(() => withTimeout(fn(), timeout), \x7b maxRetries \x7d)`
with `shouldRetry` defaulting to `isRetryableError`.  The race of
`withTimeout` is folded into the producer: an attempt losing the race is an
attempt whose outcome is an error whose message contains "timed out". -/
def executeWithResilience {A : Type} (fn : Nat → Except JsError A) (maxRetries : Nat) :
    Except JsError A × Nat :=
  retryWithBackoff fn isRetryableError maxRetries

/-! ## In-memory job queue fallback (queues/imageQueue.js) -/

/-- An in-memory job record as stored in `inMemoryJobs`
(statuses are the literal strings `pending` / `processing` / `complete` /
`failed`). -/
structure MemJob where
  status : String
  error : Option String
  deriving Repr, DecidableEq

/-- A table of in-memory jobs (`inMemoryJobs` is a JS `Map`). -/
def JobTable := List (String × MemJob)

/-- Look up a job by id (JS `Map.get`). -/
def jobGet (k : String) : List (String × MemJob) → Option MemJob
  | [] => none
  | kv :: rest => if kv.1 = k then some kv.2 else jobGet k rest

/-- Replace a job record in place (JS `Map` mutation through the stored
object reference). -/
def jobPut (k : String) (j : MemJob) : List (String × MemJob) → List (String × MemJob)
  | [] => [(k, j)]
  | kv :: rest => if kv.1 = k then (k, j) :: rest else kv :: jobPut k j rest

/-- `queueImageGeneration` in fallback mode: allocate `mem-<n>` and store a
job with `status: 'pending'`.  Returns the new table, the job id and the
bumped counter. -/
def queueImageGenerationFallback (jobs : List (String × MemJob)) (ctr : Nat) :
    List (String × MemJob) × String × Nat :=
  let jobId := "mem-" ++ toString (ctr + 1)
  (jobPut jobId { status := "pending", error := none } jobs, jobId, ctr + 1)

/-- `processInMemoryJob(jobId, processor)`: if the job exists, mark it
`processing`, invoke the processor exactly once, and record `complete` on
success or `failed` with the error message on a throw.  The processor is
modelled as a function from its invocation index to that invocation's
outcome; the returned `Nat` is the number of invocations made (0 when the
job id is unknown, 1 otherwise — the source never re-invokes it). -/
def processInMemoryJob (jobs : List (String × MemJob)) (jobId : String)
    (processor : Nat → Except String Unit) : List (String × MemJob) × Nat :=
  match jobGet jobId jobs with
  | none => (jobs, 0)
  | some _ =>
      match processor 0 with
      | .ok _ => (jobPut jobId { status := "complete", error := none } jobs, 1)
      | .error msg => (jobPut jobId { status := "failed", error := some msg } jobs, 1)

/-! ## Partial recipe extraction (service/imageAnalysisService.js)

`tryParsePartialRecipe` extracts fields from the accumulated buffer with
regular expressions.  A JS `String.match` finds the leftmost match, so each
extractor below scans every start position from the left and attempts the
pattern there. -/

/-- Consume a literal pattern at the head of the text. -/
def dropLit : List Char → List Char → Option (List Char)
  | [], l => some l
  | _ :: _, [] => none
  | a :: as, b :: bs => if a = b then dropLit as bs else none

/-- `\s*`: skip whitespace. -/
def skipWsL (l : List Char) : List Char := l.dropWhile Char.isWhitespace

/-- The capture `([^"]+)"`: at least one non-quote character up to the
closing quote (the greedy `[^"]+` cannot cross a quote, so it captures
exactly the run up to the next quote). -/
def capToQuote : List Char → List Char → Option String
  | _, [] => none
  | acc, c :: rest =>
      if c = '"' then (if acc.isEmpty then none else some (String.mk acc.reverse))
      else capToQuote (c :: acc) rest

/-- Match `<fieldLit>\s*:\s*"([^"]+)"` at the head of `l`. -/
def matchStrBodyAt (fieldLit l : List Char) : Option String :=
  match dropLit fieldLit l with
  | none => none
  | some r1 =>
      match skipWsL r1 with
      | ':' :: r2 =>
          match skipWsL r2 with
          | '"' :: r3 => capToQuote [] r3
          | _ => none
      | _ => none

/-- Leftmost match of `<fieldLit>\s*:\s*"([^"]+)"` in the buffer. -/
def findStrField (fieldLit : List Char) : List Char → Option String
  | [] => none
  | l@(_ :: rest) =>
      match matchStrBodyAt fieldLit l with
      | some s => some s
      | none => findStrField fieldLit rest

/-- The capture `(\d+)` followed by `parseInt`: a nonempty digit run. -/
def capDigits (l : List Char) : Option Nat :=
  let ds := l.takeWhile Char.isDigit
  if ds.isEmpty then none
  else some (ds.foldl (fun n c => n * 10 + (c.toNat - '0'.toNat)) 0)

/-- Match `<fieldLit>\s*:\s*(\d+)` at the head of `l`. -/
def matchNatBodyAt (fieldLit l : List Char) : Option Nat :=
  match dropLit fieldLit l with
  | none => none
  | some r1 =>
      match skipWsL r1 with
      | ':' :: r2 => capDigits (skipWsL r2)
      | _ => none

/-- Leftmost match of `<fieldLit>\s*:\s*(\d+)` in the buffer. -/
def findNatField (fieldLit : List Char) : List Char → Option Nat
  | [] => none
  | l@(_ :: rest) =>
      match matchNatBodyAt fieldLit l with
      | some n => some n
      | none => findNatField fieldLit rest

/-- The lazy capture `\[([\s\S]*?)\]`: everything up to the first `]`. -/
def capToBracket : List Char → Option (List Char)
  | [] => none
  | c :: rest => if c = ']' then some [] else (capToBracket rest).map (c :: ·)

/-- Match `<fieldLit>\s*:\s*\[([\s\S]*?)\]` at the head of `l`. -/
def matchArrBodyAt (fieldLit l : List Char) : Option (List Char) :=
  match dropLit fieldLit l with
  | none => none
  | some r1 =>
      match skipWsL r1 with
      | ':' :: r2 =>
          match skipWsL r2 with
          | '[' :: r3 => capToBracket r3
          | _ => none
      | _ => none

/-- Leftmost match of `<fieldLit>\s*:\s*\[([\s\S]*?)\]` in the buffer. -/
def findArrField (fieldLit : List Char) : List Char → Option (List Char)
  | [] => none
  | l@(_ :: rest) =>
      match matchArrBodyAt fieldLit l with
      | some inner => some inner
      | none => findArrField fieldLit rest

/-- A JSON escape sequence (`JSON.parse` handling of `\"`, `\\`, `\/`,
`\n`, `\t`, `\r`, `\b`, `\f`; `\uXXXX` escapes do not occur in the
repository's data and are not modelled). -/
def escChar (c : Char) : Char :=
  if c = 'n' then '\n'
  else if c = 't' then '\t'
  else if c = 'r' then '\r'
  else if c = 'b' then '\x08'
  else if c = 'f' then '\x0c'
  else c

/-- Parse the body of a JSON string literal (after the opening quote),
returning its content and the remaining text. -/
def parseStrLit : List Char → Option (List Char × List Char)
  | [] => none
  | '\\' :: c :: rest => (parseStrLit rest).map fun p => (escChar c :: p.1, p.2)
  | c :: rest =>
      if c = '"' then some ([], rest)
      else (parseStrLit rest).map fun p => (c :: p.1, p.2)

/-- Parse a comma-separated list of JSON string literals (fuelled; the fuel
is the length of the input plus one, which always suffices since every
element consumes at least one character). -/
def parseElems : Nat → List Char → Option (List String × List Char)
  | 0, _ => none
  | fuel + 1, l =>
      match skipWsL l with
      | '"' :: rest =>
          match parseStrLit rest with
          | none => none
          | some (content, r2) =>
              match skipWsL r2 with
              | ',' :: r3 =>
                  match parseElems fuel r3 with
                  | some (elems, r4) => some (String.mk content :: elems, r4)
                  | none => none
              | r3 => some ([String.mk content], r3)
      | _ => none

/-- `JSON.parse('[' + inner + ']')` for the captured array body.  The
arrays produced by the model (`ingredients`, `instructions`) hold strings,
so only string elements are modelled; `none` is the `catch` branch. -/
def parseJsonStrArray (inner : List Char) : Option (List String) :=
  match skipWsL inner with
  | [] => some []
  | l =>
      match parseElems (l.length + 1) l with
      | some (elems, rest) =>
          match skipWsL rest with
          | [] => some elems
          | _ => none
      | none => none

/-- The result object built by `tryParsePartialRecipe` (absent fields are
`undefined` in the source, `none` here). -/
structure ParsedRecipe where
  name : Option String
  description : Option String
  ingredients : Option (List String)
  instructions : Option (List String)
  tip : Option String
  healthRating : Option Nat
  healthNotes : Option String
  deriving Repr, DecidableEq

/-- `tryParsePartialRecipe(partialJson)`. -/
def tryParsePartialRecipe (partialJson : String) : ParsedRecipe :=
  let l := partialJson.data
  { name := findStrField "\"name\"".data l,
    description := findStrField "\"description\"".data l,
    ingredients :=
      match findArrField "\"ingredients\"".data l with
      | some inner => parseJsonStrArray inner
      | none => none,
    instructions :=
      match findArrField "\"instructions\"".data l with
      | some inner => parseJsonStrArray inner
      | none => none,
    tip := findStrField "\"tip\"".data l,
    healthRating := findNatField "\"healthRating\"".data l,
    healthNotes := findStrField "\"healthNotes\"".data l }

/-! ## Streaming recipe pipeline (generateCocktailStream) -/

/-- The optimized image URLs returned by `uploadToCloudinary`. -/
structure ImageUrls where
  original : String
  thumbnail : String
  medium : String
  large : String
  deriving Repr, DecidableEq

/-- A recipe object as handled by `generateCocktail` /
`generateCocktailStream` (optional fields are absent/`null` as `none`). -/
structure Recipe where
  name : String
  description : String
  ingredients : List String
  instructions : List String
  tip : String
  glassware : Option String
  healthRating : Nat
  healthNotes : String
  cocktailId : Option String
  imageUrl : Option String
  imageUrls : Option ImageUrls
  imageStatus : Option String
  fromCache : Bool
  deriving Repr, DecidableEq

/-- One SSE event pushed by `sendEvent(type, data)`. -/
inductive SEvent where
  | statusEv (s : String)
  | nameEv (s : String)
  | descriptionEv (s : String)
  | ingredientsEv (l : List String)
  | instructionsEv (l : List String)
  | tipEv (s : String)
  | healthEv (rating : Nat) (notes : Option String)
  | completeEv (r : Recipe)
  | imageEv (u : ImageUrls)
  | imageErrorEv (s : String)
  | doneEv (r : Recipe)
  | errorEv (s : String)
  deriving Repr, DecidableEq

/-- The `lastParsedState` flags: which fields have already been emitted. -/
structure Flags where
  name : Bool
  description : Bool
  ingredients : Bool
  instructions : Bool
  tip : Bool
  healthRating : Bool
  deriving Repr, DecidableEq

/-- The initial `lastParsedState = \x7b\x7d` (every field unset). -/
def initFlags : Flags := ⟨false, false, false, false, false, false⟩

/-- One `if (parsed.x && !lastParsedState.x) \x7b sendEvent(...);
lastParsedState.x = true \x7d` check: `v?` is the (truthiness-filtered)
parsed value, `flag` the current `lastParsedState.x`. -/
def emit1 {α : Type} (v? : Option α) (flag : Bool) (mk : α → SEvent) : List SEvent × Bool :=
  match v? with
  | none => ([], flag)
  | some v => if flag then ([], flag) else ([mk v], true)

/-- The body of the `for await` loop of `generateCocktailStream` for one
chunk: skip empty content, append to the buffer, reparse, and emit each
newly available field once, in source order (name, description,
ingredients, instructions, tip, healthRating).  The JS truthiness guards
are explicit: an empty `ingredients`/`instructions` array and a zero
`healthRating` are falsy and do not emit (the regex string captures are
never empty). -/
def streamStep (buf : String) (f : Flags) (chunk : String) : String × Flags × List SEvent :=
  if chunk = "" then (buf, f, [])
  else
    let buf' := buf ++ chunk
    let p := tryParsePartialRecipe buf'
    let r1 := emit1 p.name f.name SEvent.nameEv
    let r2 := emit1 p.description f.description SEvent.descriptionEv
    let r3 := emit1
      (match p.ingredients with
       | some l => if 0 < l.length then some l else none
       | none => none) f.ingredients SEvent.ingredientsEv
    let r4 := emit1
      (match p.instructions with
       | some l => if 0 < l.length then some l else none
       | none => none) f.instructions SEvent.instructionsEv
    let r5 := emit1 p.tip f.tip SEvent.tipEv
    let r6 := emit1
      (match p.healthRating with
       | some n => if n ≠ 0 then some (n, p.healthNotes) else none
       | none => none) f.healthRating (fun x => SEvent.healthEv x.1 x.2)
    (buf', ⟨r1.2, r2.2, r3.2, r4.2, r5.2, r6.2⟩,
     r1.1 ++ r2.1 ++ r3.1 ++ r4.1 ++ r5.1 ++ r6.1)

/-- The whole `for await` loop over the delivered fragments: final buffer,
final flags, and the field events emitted in order. -/
def runChunks : String → Flags → List String → String × Flags × List SEvent
  | buf, f, [] => (buf, f, [])
  | buf, f, c :: cs =>
      let s := streamStep buf f c
      let r := runChunks s.1 s.2.1 cs
      (r.1, r.2.1, s.2.2 ++ r.2.2)

/-- The cleanup before the authoritative parse:
`.replace(/BTCjson\n?/g, "").replace(/BTC\n?/g, "").trim()` where BTC is a
triple backtick. -/
def cleanContent (s : String) : String :=
  ((((s.replace "```json\n" "").replace "```json" "").replace "```\n" "").replace "```" "").trim

/-- Outcome of the upstream streaming call: the
`openai.chat.completions.create` call rejecting, or a stream delivering
fragments and then either completing or throwing mid-iteration. -/
inductive UpstreamOutcome where
  | createFailed (msg : String)
  | streamed (fragments : List String) (streamErr : Option String)

/-- Outcome of the follow-up image generation/upload (external calls):
`executeWithResilience` rejecting, a response without a URL, the Cloudinary
upload throwing, or success. -/
inductive ImgOutcome where
  | genFailed
  | noUrl
  | uploadFailed
  | ok (urls : ImageUrls)

/-- The image-generation phase of `generateCocktailStream` after the
`complete` event: its events and the recipe as mutated by it (the `catch`
sets `recipe.imageUrl = null`). -/
def imagePhase (r : Recipe) : ImgOutcome → List SEvent × Recipe
  | .genFailed =>
      ([.statusEv "Generating cocktail image...",
        .imageErrorEv "Failed to generate image"], { r with imageUrl := none })
  | .noUrl => ([.statusEv "Generating cocktail image..."], r)
  | .uploadFailed =>
      ([.statusEv "Generating cocktail image...", .statusEv "Uploading image...",
        .imageErrorEv "Failed to generate image"], { r with imageUrl := none })
  | .ok urls =>
      ([.statusEv "Generating cocktail image...", .statusEv "Uploading image...",
        .imageEv urls],
       { r with imageUrl := some urls.medium, imageUrls := some urls })

/-- `generateCocktailStream`: the full ordered sequence of SSE events
pushed to the response, and the recipe it returns (`none` on the failure
paths).  `finalParse` stands for the JS builtin `JSON.parse` applied to the
cleaned buffer (`none` is the `catch` branch), `freshId` for the `uuidv4()`
call.  Between the image phase and the `done` event the source also stores
the recipe in `recipeCache` (no event is emitted by that store; the cache
interaction is modelled separately with `SimpleCache`). -/
def generateCocktailStream (up : UpstreamOutcome) (finalParse : String → Option Recipe)
    (img : ImgOutcome) (freshId : String) : List SEvent × Option Recipe :=
  match up with
  | .createFailed msg =>
      ([.statusEv "Starting recipe generation...",
        .statusEv "Consulting our AI mixologist...",
        .errorEv msg], none)
  | .streamed frags streamErr =>
      let pre := [SEvent.statusEv "Starting recipe generation...",
                  SEvent.statusEv "Consulting our AI mixologist...",
                  SEvent.statusEv "Crafting your perfect cocktail..."]
      let run := runChunks "" initFlags frags
      match streamErr with
      | some m => (pre ++ run.2.2 ++ [.errorEv m], none)
      | none =>
          match finalParse (cleanContent run.1) with
          | none =>
              (pre ++ run.2.2 ++ [.errorEv "Failed to parse recipe. Please try again."], none)
          | some recipe0 =>
              let r1 := { recipe0 with cocktailId := some freshId }
              let ph := imagePhase r1 img
              (pre ++ run.2.2 ++
                 [SEvent.completeEv { r1 with imageUrl := none },
                  SEvent.statusEv "Recipe complete! Now generating image..."] ++
                 ph.1 ++ [SEvent.doneEv ph.2], some ph.2)

/-- The cache-check prefix of `generateCocktail(ingredients, flavors,
dietaryNeeds, \x7b skipCache \x7d)`: on a hit the cached recipe is returned
with a fresh `cocktailId`, `imageUrl: null`, `imageStatus: 'pending'` and
`fromCache: true`.  On `none` the source continues with upstream
generation (not needed by the claims about this path). -/
def generateCocktailCacheCheck (cache : SimpleCache Recipe) (skipCache : Bool)
    (ingredients flavors dietaryNeeds : List String) (now : Nat) (freshId : String) :
    Option Recipe × SimpleCache Recipe :=
  if skipCache then (none, cache)
  else
    let key := SimpleCache.generateKey
      [("ingredients", .arr ingredients), ("flavors", .arr flavors),
       ("dietaryNeeds", .arr dietaryNeeds)]
    let res := cache.get key now
    match res.1 with
    | some cached =>
        (some { cached with
                  cocktailId := some freshId
                  imageUrl := none
                  imageStatus := some "pending"
                  fromCache := true }, res.2)
    | none => (none, res.2)

/-! ## Lemmas about the retry loop -/

lemma retryRun_count_pos {A : Type} (fn : Nat → Except JsError A) (p : JsError → Bool)
    (attempt remaining : Nat) : 1 ≤ (retryRun fn p attempt remaining).2 := by
  cases remaining with
  | zero => match h : fn attempt with
    | .ok a => simp [retryRun, h]
    | .error e => simp [retryRun, h]
  | succ r => match h : fn attempt with
    | .ok a => simp [retryRun, h]
    | .error e => by_cases hp : p e <;> simp [retryRun, h, hp]

lemma retryRun_all_fail {A : Type} (fn : Nat → Except JsError A) (p : JsError → Bool) :
    ∀ remaining attempt,
      (∀ i, attempt ≤ i → i ≤ attempt + remaining → ∃ e, fn i = .error e ∧ p e = true) →
      ∃ e, fn (attempt + remaining) = .error e ∧
        retryRun fn p attempt remaining = (.error e, remaining + 1) := by
  intro remaining
  induction remaining with
  | zero =>
      intro attempt h
      obtain ⟨e, he, hp⟩ := h attempt le_rfl (by omega)
      exact ⟨e, by simpa using he, by simp [retryRun, he]⟩
  | succ r ih =>
      intro attempt h
      obtain ⟨e, he, hp⟩ := h attempt le_rfl (by omega)
      obtain ⟨e', he', hrun⟩ := ih (attempt + 1) (fun i h1 h2 => h i (by omega) (by omega))
      refine ⟨e', ?_, ?_⟩
      · rw [show attempt + (r + 1) = attempt + 1 + r by omega]; exact he'
      · simp [retryRun, he, hp, hrun]

lemma retryRun_shift {A : Type} (fn : Nat → Except JsError A) (p : JsError → Bool) :
    ∀ k attempt remaining, k ≤ remaining →
      (∀ i, attempt ≤ i → i < attempt + k → ∃ e, fn i = .error e ∧ p e = true) →
      (retryRun fn p attempt remaining).1 = (retryRun fn p (attempt + k) (remaining - k)).1 ∧
      (retryRun fn p attempt remaining).2 = (retryRun fn p (attempt + k) (remaining - k)).2 + k := by
  intro k
  induction k with
  | zero => intro attempt remaining _ _; simp
  | succ j ih =>
      intro attempt remaining hk h
      obtain ⟨e, he, hp⟩ := h attempt le_rfl (by omega)
      obtain ⟨r, rfl⟩ : ∃ r, remaining = r + 1 := ⟨remaining - 1, by omega⟩
      have step : retryRun fn p attempt (r + 1) =
          ((retryRun fn p (attempt + 1) r).1, (retryRun fn p (attempt + 1) r).2 + 1) := by
        simp [retryRun, he, hp]
      have hrec := ih (attempt + 1) r (by omega) (fun i h1 h2 => h i (by omega) (by omega))
      have e1 : attempt + 1 + j = attempt + (j + 1) := by omega
      have e2 : r - j = r + 1 - (j + 1) := by omega
      constructor
      · rw [step]
        have := hrec.1
        rw [e1, e2] at this
        exact this
      · rw [step]
        have := hrec.2
        rw [e1, e2] at this
        simp only []
        omega

/-- C1: for a retry policy with `maxRetries = R` and a producer every one of
whose invocations rejects with a retryable error, `retryWithBackoff` (and
hence `executeWithResilience`) invokes the producer exactly `R + 1` times
and rejects with the error of the last, `(R+1)`-th, invocation. -/
theorem retryWithBackoff_exhausts_retries {A : Type}
    (fn : Nat → Except JsError A) (R : Nat)
    (h : ∀ i, i ≤ R → ∃ e, fn i = .error e ∧ isRetryableError e = true) :
    ∃ e, fn R = .error e ∧
      retryWithBackoff fn isRetryableError R = (.error e, R + 1) ∧
      executeWithResilience fn R = (.error e, R + 1) := by
  obtain ⟨e, he, hrun⟩ := retryRun_all_fail fn isRetryableError R 0 (fun i _ h2 => h i (by omega))
  refine ⟨e, by simpa using he, ?_, ?_⟩
  · simpa [retryWithBackoff] using hrun
  · simpa [executeWithResilience, retryWithBackoff] using hrun

/-- Witness for C1 at a producer that always rejects with HTTP 500 and
`maxRetries = 2`: three invocations, the final rejection is that error. -/
theorem retryWithBackoff_exhausts_retries_witness :
    ∃ e, (fun _ : Nat => (Except.error ⟨none, some 500, "server down"⟩ : Except JsError Nat)) 2
        = .error e ∧
      retryWithBackoff (fun _ : Nat => (Except.error ⟨none, some 500, "server down"⟩ :
        Except JsError Nat)) isRetryableError 2 = (.error e, 3) ∧
      executeWithResilience (fun _ : Nat => (Except.error ⟨none, some 500, "server down"⟩ :
        Except JsError Nat)) 2 = (.error e, 3) :=
  retryWithBackoff_exhausts_retries _ 2
    (fun _ _ => ⟨⟨none, some 500, "server down"⟩, rfl, by decide⟩)

/-- C2: after a failed attempt the loop retries iff the error is classified
retryable by `isRetryableError` and the attempts made so far stay within
the budget.  If the `(k+1)`-th invocation fails non-retryably (Fatal),
the error is surfaced immediately after exactly `k + 1` invocations
regardless of the remaining budget; if it fails retryably with budget left
(`k < R`), at least one further invocation happens; if it fails retryably
with the budget exhausted (`k = R`), the error is surfaced after exactly
`R + 1` invocations. -/
theorem retry_iff_retryable_within_budget {A : Type}
    (fn : Nat → Except JsError A) (R k : Nat) (e : JsError)
    (hkR : k ≤ R)
    (hbefore : ∀ i, i < k → ∃ e', fn i = .error e' ∧ isRetryableError e' = true)
    (hke : fn k = .error e) :
    (isRetryableError e = false → executeWithResilience fn R = (.error e, k + 1)) ∧
    (isRetryableError e = true → k < R → k + 2 ≤ (executeWithResilience fn R).2) ∧
    (isRetryableError e = true → k = R → executeWithResilience fn R = (.error e, R + 1)) := by
  have hs := retryRun_shift fn isRetryableError k 0 R hkR (fun i _ h2 => hbefore i (by omega))
  simp only [Nat.zero_add] at hs
  refine ⟨?_, ?_, ?_⟩
  · intro hfatal
    have htail : retryRun fn isRetryableError k (R - k) = (.error e, 1) := by
      cases hRk : R - k with
      | zero => simp [retryRun, hke]
      | succ r => simp [retryRun, hke, hfatal]
    have h1 : (executeWithResilience fn R).1 = .error e := by
      have h' := hs.1; rw [htail] at h'
      simpa [executeWithResilience, retryWithBackoff] using h'
    have h2 : (executeWithResilience fn R).2 = k + 1 := by
      have h' := hs.2; rw [htail] at h'
      simp at h'
      simp only [executeWithResilience, retryWithBackoff]
      omega
    exact Prod.ext h1 h2
  · intro hret hklt
    obtain ⟨r, hr⟩ : ∃ r, R - k = r + 1 := ⟨R - k - 1, by omega⟩
    have htail : (retryRun fn isRetryableError k (R - k)).2 =
        (retryRun fn isRetryableError (k + 1) r).2 + 1 := by
      rw [hr]; simp [retryRun, hke, hret]
    have hpos := retryRun_count_pos fn isRetryableError (k + 1) r
    have hcount : (executeWithResilience fn R).2 =
        (retryRun fn isRetryableError k (R - k)).2 + k := by
      simpa [executeWithResilience, retryWithBackoff] using hs.2
    omega
  · intro hret hkeq
    subst hkeq
    have htail : retryRun fn isRetryableError k (k - k) = (.error e, 1) := by
      simp [retryRun, hke, Nat.sub_self]
    have h1 : (executeWithResilience fn k).1 = .error e := by
      have h' := hs.1; rw [htail] at h'
      simpa [executeWithResilience, retryWithBackoff] using h'
    have h2 : (executeWithResilience fn k).2 = k + 1 := by
      have h' := hs.2; rw [htail] at h'
      simp at h'
      simp only [executeWithResilience, retryWithBackoff]
      omega
    exact Prod.ext h1 h2

/-- Witness for C2 at a producer whose first invocation rejects with a
Fatal (non-retryable) error while the retry budget is 3: the error is
surfaced after exactly one invocation. -/
theorem retry_iff_retryable_within_budget_witness :
    executeWithResilience
        (fun _ : Nat => (Except.error ⟨none, none, "Missing required fields"⟩ :
          Except JsError Nat)) 3 =
      (.error ⟨none, none, "Missing required fields"⟩, 1) :=
  (retry_iff_retryable_within_budget _ 3 0 _ (by omega)
    (fun i hi => absurd hi (by omega)) rfl).1 (by decide)

/-! ## Lemmas about the cache map and eviction -/

lemma length_mapSet_le {V : Type} (k : String) (e : CacheEntry V)
    (l : List (String × CacheEntry V)) : (mapSet k e l).length ≤ l.length + 1 := by
  induction l with
  | nil => simp [mapSet]
  | cons kv rest ih =>
      by_cases h : kv.1 = k
      · simp [mapSet, h]
      · simp [mapSet, h]; omega

lemma length_eraseKey_of_mem {V : Type} (k : String) (l : List (String × CacheEntry V))
    (h : ∃ kv ∈ l, kv.1 = k) : (eraseKey k l).length + 1 = l.length := by
  induction l with
  | nil => simp at h
  | cons kv rest ih =>
      by_cases hk : kv.1 = k
      · simp [eraseKey, hk]
      · have h' : ∃ kv' ∈ rest, kv'.1 = k := by
          rcases h with ⟨kv', hmem, hkk⟩
          rcases List.mem_cons.mp hmem with rfl | hmem'
          · exact absurd hkk hk
          · exact ⟨kv', hmem', hkk⟩
        simp only [eraseKey, if_neg hk, List.length_cons]
        rw [← ih h']

lemma foldl_oldestStep_some {V : Type} :
    ∀ (l : List (String × CacheEntry V)) (k0 : String) (t0 : Nat),
      ∃ k t, l.foldl oldestStep (some (k0, t0)) = some (k, t) ∧ t ≤ t0 ∧
        ((k, t) = (k0, t0) ∨ ∃ kv ∈ l, kv.1 = k ∧ kv.2.createdAt = t) ∧
        ∀ kv ∈ l, t ≤ kv.2.createdAt := by
  intro l
  induction l with
  | nil => intro k0 t0; exact ⟨k0, t0, rfl, le_rfl, Or.inl rfl, by simp⟩
  | cons kv rest ih =>
      intro k0 t0
      by_cases h : kv.2.createdAt < t0
      · obtain ⟨k, t, heq, hle, hmem, hmin⟩ := ih kv.1 kv.2.createdAt
        refine ⟨k, t, ?_, by omega, ?_, ?_⟩
        · simpa [oldestStep, h] using heq
        · rcases hmem with heq' | ⟨kv', hm, h1, h2⟩
          · have hk' : kv.1 = k := (congrArg Prod.fst heq').symm
            have ht' : kv.2.createdAt = t := (congrArg Prod.snd heq').symm
            exact Or.inr ⟨kv, List.mem_cons_self kv rest, hk', ht'⟩
          · exact Or.inr ⟨kv', List.mem_cons_of_mem _ hm, h1, h2⟩
        · intro kv' h'
          rcases List.mem_cons.mp h' with rfl | h''
          · exact hle
          · exact hmin kv' h''
      · obtain ⟨k, t, heq, hle, hmem, hmin⟩ := ih k0 t0
        refine ⟨k, t, ?_, hle, ?_, ?_⟩
        · simpa [oldestStep, h] using heq
        · rcases hmem with heq' | ⟨kv', hm, h1, h2⟩
          · exact Or.inl heq'
          · exact Or.inr ⟨kv', List.mem_cons_of_mem _ hm, h1, h2⟩
        · intro kv' h'
          rcases List.mem_cons.mp h' with rfl | h''
          · omega
          · exact hmin kv' h''

lemma findOldest_spec {V : Type} (l : List (String × CacheEntry V)) (hne : l ≠ []) :
    ∃ k t, findOldest l = some (k, t) ∧ (∃ kv ∈ l, kv.1 = k ∧ kv.2.createdAt = t) ∧
      ∀ kv ∈ l, t ≤ kv.2.createdAt := by
  match l, hne with
  | kv :: rest, _ =>
      obtain ⟨k, t, heq, hle, hmem, hmin⟩ := foldl_oldestStep_some rest kv.1 kv.2.createdAt
      refine ⟨k, t, ?_, ?_, ?_⟩
      · simpa [findOldest, oldestStep] using heq
      · rcases hmem with heq' | ⟨kv', hm, h1, h2⟩
        · refine ⟨kv, List.mem_cons_self kv rest, ?_, ?_⟩
          · exact (congrArg Prod.fst heq').symm
          · exact (congrArg Prod.snd heq').symm
        · exact ⟨kv', List.mem_cons_of_mem _ hm, h1, h2⟩
      · intro kv' h'
        rcases List.mem_cons.mp h' with rfl | h''
        · exact hle
        · exact hmin kv' h''

lemma mem_eraseKey {V : Type} (k : String) (kv : String × CacheEntry V) :
    ∀ l : List (String × CacheEntry V), kv ∈ eraseKey k l → kv ∈ l := by
  intro l
  induction l with
  | nil => intro h; simp [eraseKey] at h
  | cons kv' rest ih =>
      intro h
      by_cases hk : kv'.1 = k
      · simp only [eraseKey, if_pos hk] at h
        exact List.mem_cons_of_mem _ h
      · simp only [eraseKey, if_neg hk] at h
        rcases List.mem_cons.mp h with rfl | h'
        · exact List.mem_cons_self _ _
        · exact List.mem_cons_of_mem _ (ih h')

lemma mem_mapSet {V : Type} (k : String) (e : CacheEntry V) (kv : String × CacheEntry V) :
    ∀ l : List (String × CacheEntry V), kv ∈ mapSet k e l → kv = (k, e) ∨ kv ∈ l := by
  intro l
  induction l with
  | nil =>
      intro h
      simp only [mapSet, List.mem_cons, List.not_mem_nil, or_false] at h
      exact Or.inl h
  | cons kv' rest ih =>
      intro h
      by_cases hk : kv'.1 = k
      · simp only [mapSet, if_pos hk] at h
        rcases List.mem_cons.mp h with rfl | h'
        · exact Or.inl rfl
        · exact Or.inr (List.mem_cons_of_mem _ h')
      · simp only [mapSet, if_neg hk] at h
        rcases List.mem_cons.mp h with rfl | h'
        · exact Or.inr (List.mem_cons_self _ _)
        · rcases ih h' with h'' | h''
          · exact Or.inl h''
          · exact Or.inr (List.mem_cons_of_mem _ h'')

lemma evictOldest_mem_subset {V : Type} (c : SimpleCache V) (kv : String × CacheEntry V)
    (h : kv ∈ c.evictOldest.cache) : kv ∈ c.cache := by
  unfold SimpleCache.evictOldest at h
  rcases hf : findOldest c.cache with _ | ⟨k, t⟩
  · rw [hf] at h
    exact h
  · rw [hf] at h
    dsimp only at h
    by_cases hk : k = ""
    · rw [if_pos hk] at h
      exact h
    · rw [if_neg hk] at h
      exact mem_eraseKey k kv c.cache h

lemma evictOldest_length {V : Type} (c : SimpleCache V) (hne : c.cache ≠ [])
    (hk : ∀ kv ∈ c.cache, kv.1 ≠ "") :
    (c.evictOldest).cache.length + 1 = c.cache.length ∧
    (c.evictOldest).maxSize = c.maxSize ∧
    (c.evictOldest).stats.evictions = c.stats.evictions + 1 := by
  obtain ⟨k, t, heq, hmem, hmin⟩ := findOldest_spec c.cache hne
  obtain ⟨kv, hkvmem, hkv1, _⟩ := hmem
  have hkne : ¬ k = "" := hkv1 ▸ hk kv hkvmem
  have hm : ∃ kv ∈ c.cache, kv.1 = k := ⟨kv, hkvmem, hkv1⟩
  refine ⟨?_, ?_, ?_⟩ <;>
    simp [SimpleCache.evictOldest, heq, hkne, length_eraseKey_of_mem k c.cache hm]

lemma set_size_le {V : Type} (c : SimpleCache V) (k : String) (v : V) (ttl now : Nat)
    (h1 : 1 ≤ c.maxSize) (h2 : c.cache.length ≤ c.maxSize)
    (hc : ∀ kv ∈ c.cache, kv.1 ≠ "") :
    (c.set k v ttl now).cache.length ≤ c.maxSize ∧ (c.set k v ttl now).maxSize = c.maxSize := by
  by_cases hcap : c.maxSize ≤ c.cache.length
  · have hne : c.cache ≠ [] := by
      intro h; rw [h] at hcap; simp at hcap; omega
    obtain ⟨hlen, hmax, _⟩ := evictOldest_length c hne hc
    have hms := length_mapSet_le k ⟨v, now + ttl, now⟩ (c.evictOldest).cache
    constructor
    · simp only [SimpleCache.set, if_pos hcap]
      omega
    · simp only [SimpleCache.set, if_pos hcap]
      exact hmax
  · have hms := length_mapSet_le k ⟨v, now + ttl, now⟩ c.cache
    constructor
    · simp only [SimpleCache.set, if_neg hcap]
      omega
    · simp only [SimpleCache.set, if_neg hcap]

lemma set_noEmptyKey {V : Type} (c : SimpleCache V) (k : String) (v : V) (ttl now : Nat)
    (hc : ∀ kv ∈ c.cache, kv.1 ≠ "") (hk : k ≠ "") :
    ∀ kv ∈ (c.set k v ttl now).cache, kv.1 ≠ "" := by
  intro kv hm
  have hc1 : ∀ kv' ∈ (if c.maxSize ≤ c.cache.length then c.evictOldest else c).cache,
      kv'.1 ≠ "" := by
    intro kv' hm'
    by_cases hcap : c.maxSize ≤ c.cache.length
    · rw [if_pos hcap] at hm'
      exact hc kv' (evictOldest_mem_subset c kv' hm')
    · rw [if_neg hcap] at hm'
      exact hc kv' hm'
  simp only [SimpleCache.set] at hm
  rcases mem_mapSet k ⟨v, now + ttl, now⟩ kv _ hm with rfl | hm'
  · exact hk
  · exact hc1 kv hm'

lemma applySets_size_le {V : Type} :
    ∀ (ops : List (String × V × Nat × Nat)) (c0 : SimpleCache V),
      1 ≤ c0.maxSize → c0.cache.length ≤ c0.maxSize →
      (∀ kv ∈ c0.cache, kv.1 ≠ "") → (∀ op ∈ ops, op.1 ≠ "") →
      (applySets c0 ops).cache.length ≤ (applySets c0 ops).maxSize := by
  intro ops
  induction ops with
  | nil => intro c0 h1 h2 _ _; simpa [applySets] using h2
  | cons op rest ih =>
      intro c0 h1 h2 hc hops
      obtain ⟨ha, hb⟩ := set_size_le c0 op.1 op.2.1 op.2.2.1 op.2.2.2 h1 h2 hc
      have hop1 : op.1 ≠ "" := hops op (List.mem_cons_self _ _)
      exact ih _ (by omega) (by omega)
        (set_noEmptyKey c0 op.1 op.2.1 op.2.2.1 op.2.2.2 hc hop1)
        (fun o ho => hops o (List.mem_cons_of_mem _ ho))

/-- C3 counterexample: the claim's size bound, oldest-entry eviction and
counter increment are universally quantified over `set` sequences, but the
source guards eviction with `if (oldestKey)` and the empty string is falsy
in JS.  Storing an entry under the key `""` in a cache of `maxSize = 1`
and then inserting a second key skips the eviction and the counter bump,
leaving 2 entries in a cache bounded by 1. -/
theorem cache_exceeds_maxSize_with_empty_key :
    (((SimpleCache.mk' String 1).set "" "v0" 10 0).set "a" "v1" 10 1).cache.length = 2 ∧
    (((SimpleCache.mk' String 1).set "" "v0" 10 0).set "a" "v1" 10 1).maxSize = 1 ∧
    (((SimpleCache.mk' String 1).set "" "v0" 10 0).set "a" "v1" 10 1).stats.evictions = 0 := by
  decide

/-- C3 (amended): provided no entry is ever stored under the empty-string
key (every key the repository builds is a nonempty JSON string), the cache
never holds more than `maxSize` entries under any sequence of `set` calls;
whenever `set` at capacity evicts, the evicted entry is one whose
`createdAt` is minimal among the entries present (`findOldest` returns a
present entry of minimal `createdAt`, and `evictOldest` removes exactly
that entry), and the `evictions` counter is incremented.  With an
empty-string key as the oldest entry the `if (oldestKey)` truthiness guard
skips eviction and the insert exceeds `maxSize`. -/
theorem cache_bounded_and_evicts_oldest {V : Type} :
    (∀ (c0 : SimpleCache V) (ops : List (String × V × Nat × Nat)),
        1 ≤ c0.maxSize → c0.cache.length ≤ c0.maxSize →
        (∀ kv ∈ c0.cache, kv.1 ≠ "") → (∀ op ∈ ops, op.1 ≠ "") →
        (applySets c0 ops).cache.length ≤ (applySets c0 ops).maxSize) ∧
    (∀ c : SimpleCache V, c.cache ≠ [] → (∀ kv ∈ c.cache, kv.1 ≠ "") →
        ∃ k t, findOldest c.cache = some (k, t) ∧
          (∃ kv ∈ c.cache, kv.1 = k ∧ kv.2.createdAt = t) ∧
          (∀ kv ∈ c.cache, t ≤ kv.2.createdAt) ∧
          c.evictOldest.cache = eraseKey k c.cache ∧
          c.evictOldest.stats.evictions = c.stats.evictions + 1) ∧
    (∀ (c : SimpleCache V) (k : String) (v : V) (ttl now : Nat),
        1 ≤ c.maxSize → c.maxSize ≤ c.cache.length →
        (∀ kv ∈ c.cache, kv.1 ≠ "") →
        (c.set k v ttl now).stats.evictions = c.stats.evictions + 1) := by
  refine ⟨fun c0 ops h1 h2 hc hops => applySets_size_le ops c0 h1 h2 hc hops, ?_, ?_⟩
  · intro c hne hc
    obtain ⟨k, t, heq, hmem, hmin⟩ := findOldest_spec c.cache hne
    have hkne : ¬ k = "" := by
      obtain ⟨kv, hkvmem, hkv1, _⟩ := hmem
      exact hkv1 ▸ hc kv hkvmem
    exact ⟨k, t, heq, hmem, hmin, by simp [SimpleCache.evictOldest, heq, hkne],
      by simp [SimpleCache.evictOldest, heq, hkne]⟩
  · intro c k v ttl now h1 hcap hc
    have hne : c.cache ≠ [] := by
      intro h; rw [h] at hcap; simp at hcap; omega
    obtain ⟨_, _, hev⟩ := evictOldest_length c hne hc
    simp only [SimpleCache.set, if_pos hcap]
    exact hev

/-- Witness for C3's amended theorem at a 2-entry cache receiving three
inserts under nonempty keys: the size stays at the bound. -/
theorem cache_bounded_and_evicts_oldest_witness :
    (applySets (SimpleCache.mk' String 2)
        [("a", "1", 10, 0), ("b", "2", 10, 1), ("c", "3", 10, 2)]).cache.length ≤
      (applySets (SimpleCache.mk' String 2)
        [("a", "1", 10, 0), ("b", "2", 10, 1), ("c", "3", 10, 2)]).maxSize :=
  (cache_bounded_and_evicts_oldest).1 (SimpleCache.mk' String 2)
    [("a", "1", 10, 0), ("b", "2", 10, 1), ("c", "3", 10, 2)]
    (by decide) (by decide) (by decide) (by decide)

/-! ## Expiry semantics of SimpleCache.get -/

lemma mapGet_mapSet_self {V : Type} (k : String) (e : CacheEntry V)
    (l : List (String × CacheEntry V)) : mapGet k (mapSet k e l) = some e := by
  induction l with
  | nil => simp [mapSet, mapGet]
  | cons kv rest ih =>
      by_cases h : kv.1 = k
      · simp [mapSet, h, mapGet]
      · simp [mapSet, h, mapGet, ih]

/-- C4 counterexample: the claim says a lookup at the expiry instant is
already a miss (`visible iff now < expiresAt`), but the source checks
`Date.now() > entry.expiry`, so at `now = expiresAt` the value is still
returned.  An entry is set at time 0 with ttl 5 (hence `expiresAt = 5`)
and looked up at time 5: the lookup is a hit. -/
theorem get_at_expiry_instant_is_hit :
    (((SimpleCache.mk' String 10).set "k" "v" 5 0).get "k" 5).1 = some "v" := by decide

/-- C4 (amended): an entry is visible to `get` iff `now ≤ expiresAt`
(misses start strictly after the expiry instant, not at it); a lookup that
finds an entry past its expiry deletes it lazily and increments the miss
counter; a visible lookup increments the hit counter and leaves the table
unchanged; and an entry stored by `set` carries `expiresAt = now + ttl`. -/
theorem get_visible_iff_now_le_expiry {V : Type} (c : SimpleCache V) (k : String)
    (now : Nat) (e : CacheEntry V) (he : mapGet k c.cache = some e) :
    (now ≤ e.expiry →
       c.get k now = (some e.value,
         { c with stats := { c.stats with hits := c.stats.hits + 1 } })) ∧
    (e.expiry < now →
       c.get k now = (none,
         { c with cache := eraseKey k c.cache,
                  stats := { c.stats with misses := c.stats.misses + 1 } })) ∧
    (∀ (v : V) (ttl now0 : Nat),
       mapGet k (c.set k v ttl now0).cache = some ⟨v, now0 + ttl, now0⟩) := by
  refine ⟨?_, ?_, ?_⟩
  · intro hle
    have hnot : ¬ e.expiry < now := by omega
    simp [SimpleCache.get, he, hnot]
  · intro hlt
    simp [SimpleCache.get, he, hlt]
  · intro v ttl now0
    simp only [SimpleCache.set]
    exact mapGet_mapSet_self k ⟨v, now0 + ttl, now0⟩ _

/-- Witness for C4's amended theorem: a concrete entry with `expiresAt = 5`
is a hit at `now = 4` and a lazily deleting miss at `now = 6`. -/
theorem get_visible_iff_now_le_expiry_witness :
    (((SimpleCache.mk' String 10).set "k" "v" 5 0).get "k" 4).1 = some "v" ∧
    (((SimpleCache.mk' String 10).set "k" "v" 5 0).get "k" 6).1 = none := by
  have h4 := get_visible_iff_now_le_expiry ((SimpleCache.mk' String 10).set "k" "v" 5 0)
    "k" 4 ⟨"v", 5, 0⟩ (by decide)
  have h6 := get_visible_iff_now_le_expiry ((SimpleCache.mk' String 10).set "k" "v" 5 0)
    "k" 6 ⟨"v", 5, 0⟩ (by decide)
  constructor
  · rw [h4.1 (by decide)]
  · rw [h6.2.1 (by decide)]

/-! ## The cache-hit path of generateCocktail (C10) -/

/-- C10 counterexample: the claim says no image URL stored with the cached
recipe is returned on a hit, but only the top-level `imageUrl` field is
overridden by the spread — the `imageUrls` object (the four Cloudinary
URLs stored by both generation paths) survives into the returned recipe.
A concrete hit on a cached recipe carrying image URLs returns them. -/
theorem cache_hit_returns_stored_imageUrls :
    ((generateCocktailCacheCheck
        ((SimpleCache.mk' Recipe 5).set
          (SimpleCache.generateKey
            [("ingredients", .arr ["gin"]), ("flavors", .arr ["sour"]),
             ("dietaryNeeds", .arr [])])
          ⟨"Gimlet", "crisp", ["gin", "lime"],
           ["stir", "strain", "pour", "garnish", "serve"], "chill first", some "coupe", 5,
           "notes", none, some "https://img/m",
           some ⟨"https://img/o", "https://img/t", "https://img/m", "https://img/l"⟩,
           none, false⟩ 100 0)
        false ["gin"] ["sour"] [] 3 "id-2").1).map Recipe.imageUrls =
      some (some ⟨"https://img/o", "https://img/t", "https://img/m", "https://img/l"⟩) := by
  decide

/-- C10 (amended): when `skipCache` is false and the lookup under the
request's fingerprint key finds an unexpired entry, `generateCocktail`
returns the cached recipe with a freshly generated `cocktailId`,
`imageUrl = null`, `imageStatus = "pending"` and `fromCache = true` — the
top-level `imageUrl` is reset to null, but the stored `imageUrls` object
(the Cloudinary URL set) is carried over and returned — all other fields
copied, and the cache table itself is unchanged by the lookup (only the
hit counter is incremented). -/
theorem generateCocktail_cache_hit (cache : SimpleCache Recipe)
    (ingredients flavors dietaryNeeds : List String) (now : Nat) (freshId : String)
    (e : CacheEntry Recipe)
    (he : mapGet (SimpleCache.generateKey
        [("ingredients", .arr ingredients), ("flavors", .arr flavors),
         ("dietaryNeeds", .arr dietaryNeeds)]) cache.cache = some e)
    (hfresh : now ≤ e.expiry) :
    generateCocktailCacheCheck cache false ingredients flavors dietaryNeeds now freshId =
      (some { e.value with
                cocktailId := some freshId
                imageUrl := none
                imageStatus := some "pending"
                fromCache := true },
       { cache with stats := { cache.stats with hits := cache.stats.hits + 1 } }) := by
  have hnot : ¬ e.expiry < now := by omega
  simp [generateCocktailCacheCheck, SimpleCache.get, he, hnot]

/-- Witness for C10: a concrete cached recipe carrying an image URL is
returned from the cache with a fresh id, no image URL, pending image
status and the `fromCache` marker; the entry stays cached. -/
theorem generateCocktail_cache_hit_witness :
    generateCocktailCacheCheck
        ((SimpleCache.mk' Recipe 5).set
          (SimpleCache.generateKey
            [("ingredients", .arr ["gin"]), ("flavors", .arr ["sour"]),
             ("dietaryNeeds", .arr [])])
          ⟨"Gimlet", "crisp", ["gin", "lime"], ["stir", "strain", "pour", "garnish", "serve"],
           "chill first", some "coupe", 5, "notes", none, some "http://img", none, none, false⟩
          100 0)
        false ["gin"] ["sour"] [] 3 "id-1" =
      (some ⟨"Gimlet", "crisp", ["gin", "lime"],
             ["stir", "strain", "pour", "garnish", "serve"],
             "chill first", some "coupe", 5, "notes", some "id-1", none, none,
             some "pending", true⟩,
       { ((SimpleCache.mk' Recipe 5).set
            (SimpleCache.generateKey
              [("ingredients", .arr ["gin"]), ("flavors", .arr ["sour"]),
               ("dietaryNeeds", .arr [])])
            ⟨"Gimlet", "crisp", ["gin", "lime"],
             ["stir", "strain", "pour", "garnish", "serve"],
             "chill first", some "coupe", 5, "notes", none, some "http://img", none, none, false⟩
            100 0) with
         stats := ⟨1, 0, 1, 0⟩ }) := by
  rw [generateCocktail_cache_hit _ ["gin"] ["sour"] [] 3 "id-1"
    ⟨⟨"Gimlet", "crisp", ["gin", "lime"], ["stir", "strain", "pour", "garnish", "serve"],
      "chill first", some "coupe", 5, "notes", none, some "http://img", none, none, false⟩,
      100, 0⟩ (by decide) (by decide)]
  rfl

/-! ## Order lemmas for the key builder (C6) -/

lemma listLeb_total : ∀ as bs : List Char, listLeb as bs = true ∨ listLeb bs as = true := by
  intro as
  induction as with
  | nil => intro bs; left; cases bs <;> simp [listLeb]
  | cons a as ih =>
      intro bs
      cases bs with
      | nil => right; simp [listLeb]
      | cons b bs =>
          by_cases h1 : a.toNat < b.toNat
          · left; simp [listLeb, h1]
          · by_cases h2 : b.toNat < a.toNat
            · right; simp [listLeb, h2]
            · rcases ih bs with h | h
              · left; simp [listLeb, h1, h2, h]
              · right; simp [listLeb, h1, h2, h]

lemma listLeb_trans : ∀ as bs cs : List Char,
    listLeb as bs = true → listLeb bs cs = true → listLeb as cs = true := by
  intro as
  induction as with
  | nil => intro bs cs _ _; cases cs <;> simp [listLeb]
  | cons a as ih =>
      intro bs cs h1 h2
      cases bs with
      | nil => simp [listLeb] at h1
      | cons b bs =>
          cases cs with
          | nil => simp [listLeb] at h2
          | cons c cs =>
              simp only [listLeb] at h1 h2 ⊢
              by_cases hab : a.toNat < b.toNat
              · by_cases hbc : b.toNat < c.toNat
                · simp [show a.toNat < c.toNat by omega]
                · by_cases hcb : c.toNat < b.toNat
                  · simp [hbc, hcb] at h2
                  · simp [show a.toNat < c.toNat by omega]
              · by_cases hba : b.toNat < a.toNat
                · simp [hab, hba] at h1
                · simp only [if_neg hab, if_neg hba] at h1
                  by_cases hbc : b.toNat < c.toNat
                  · simp [show a.toNat < c.toNat by omega]
                  · by_cases hcb : c.toNat < b.toNat
                    · simp [hbc, hcb] at h2
                    · simp only [if_neg hbc, if_neg hcb] at h2
                      have hac : ¬ a.toNat < c.toNat := by omega
                      have hca : ¬ c.toNat < a.toNat := by omega
                      simp only [if_neg hac, if_neg hca]
                      exact ih bs cs h1 h2

lemma listLeb_antisymm : ∀ as bs : List Char,
    listLeb as bs = true → listLeb bs as = true → as = bs := by
  intro as
  induction as with
  | nil =>
      intro bs _ h2
      cases bs with
      | nil => rfl
      | cons b bs => simp [listLeb] at h2
  | cons a as ih =>
      intro bs h1 h2
      cases bs with
      | nil => simp [listLeb] at h1
      | cons b bs =>
          simp only [listLeb] at h1 h2
          by_cases hab : a.toNat < b.toNat
          · simp [hab, show ¬ b.toNat < a.toNat by omega] at h2
          · by_cases hba : b.toNat < a.toNat
            · simp [hab, hba] at h1
            · simp only [if_neg hab, if_neg hba] at h1
              simp only [if_neg hba, if_neg hab] at h2
              have hc : a = b :=
                Char.eq_of_val_eq (UInt32.ext (show a.toNat = b.toNat by omega))
              rw [hc, ih bs h1 h2]

lemma strData_ext {a b : String} (h : a.data = b.data) : a = b := by
  cases a; cases b; exact congrArg String.mk h

instance : IsTotal String strLe := ⟨fun a b => listLeb_total a.data b.data⟩

instance : IsTrans String strLe := ⟨fun a b c => listLeb_trans a.data b.data c.data⟩

instance : IsAntisymm String strLe :=
  ⟨fun a b h1 h2 => strData_ext (listLeb_antisymm a.data b.data h1 h2)⟩

instance : IsTotal (String × JVal) keyLe := ⟨fun a b => listLeb_total a.1.data b.1.data⟩

instance : IsTrans (String × JVal) keyLe := ⟨fun a b c => listLeb_trans a.1.data b.1.data c.1.data⟩

/-- Strict key order: used to compare sorted binding lists with distinct
keys. -/
def keyLt (p q : String × JVal) : Prop := keyLe p q ∧ p.1 ≠ q.1

instance : IsAntisymm (String × JVal) keyLt :=
  ⟨fun _ _ h1 h2 => absurd (antisymm (r := strLe) h1.1 h2.1) h1.2⟩

lemma insertionSort_strLe_eq_of_perm (l1 l2 : List String) (h : l1.Perm l2) :
    l1.insertionSort strLe = l2.insertionSort strLe :=
  List.eq_of_perm_of_sorted
    ((List.perm_insertionSort strLe l1).trans (h.trans (List.perm_insertionSort strLe l2).symm))
    (List.sorted_insertionSort strLe l1) (List.sorted_insertionSort strLe l2)

lemma sortPairs_eq_of_perm (l1 l2 : List (String × JVal)) (h : l1.Perm l2)
    (hnd : (l1.map Prod.fst).Nodup) : sortPairs l1 = sortPairs l2 := by
  have hperm : (sortPairs l1).Perm (sortPairs l2) :=
    (List.perm_insertionSort keyLe l1).trans (h.trans (List.perm_insertionSort keyLe l2).symm)
  have hs1 : (sortPairs l1).Pairwise keyLe := List.sorted_insertionSort keyLe l1
  have hs2 : (sortPairs l2).Pairwise keyLe := List.sorted_insertionSort keyLe l2
  have hnd1 : ((sortPairs l1).map Prod.fst).Nodup :=
    (((List.perm_insertionSort keyLe l1).map Prod.fst).nodup_iff).mpr hnd
  have hnd2 : ((sortPairs l2).map Prod.fst).Nodup := by
    have hl2 : (l2.map Prod.fst).Nodup := ((h.map Prod.fst).nodup_iff).mp hnd
    exact (((List.perm_insertionSort keyLe l2).map Prod.fst).nodup_iff).mpr hl2
  have hlt1 : (sortPairs l1).Pairwise keyLt :=
    (hs1.and (List.pairwise_map.mp hnd1)).imp (fun hx => ⟨hx.1, hx.2⟩)
  have hlt2 : (sortPairs l2).Pairwise keyLt :=
    (hs2.and (List.pairwise_map.mp hnd2)).imp (fun hx => ⟨hx.1, hx.2⟩)
  exact List.eq_of_perm_of_sorted (r := keyLt) hperm hlt1 hlt2

lemma orderedInsert_map_normPair (a : String × JVal) :
    ∀ l : List (String × JVal),
      (l.orderedInsert keyLe a).map normPair =
        (l.map normPair).orderedInsert keyLe (normPair a) := by
  intro l
  induction l with
  | nil => simp [List.orderedInsert]
  | cons b l ih =>
      by_cases h : keyLe a b
      · have h' : keyLe (normPair a) (normPair b) := h
        simp [List.orderedInsert, h, h']
      · have h' : ¬ keyLe (normPair a) (normPair b) := h
        simp [List.orderedInsert, h, h', ih]

lemma sortPairs_map_normPair : ∀ l : List (String × JVal),
    (sortPairs l).map normPair = sortPairs (l.map normPair) := by
  intro l
  induction l with
  | nil => simp [sortPairs, List.insertionSort]
  | cons a l ih =>
      simp only [sortPairs, List.insertionSort, List.map_cons] at ih ⊢
      rw [orderedInsert_map_normPair, ih]

/-- C6: `generateKey` is invariant under the enumeration order of the
parameter names and under reordering of the elements of any array-valued
parameter: whenever the normalized bindings (each array value sorted) of
two objects with distinct parameter names are permutations of each other
— which holds exactly when the two objects bind the same names to values
that agree up to permutation of arrays — the generated keys are equal. -/
theorem generateKey_perm_invariant (obj1 obj2 : List (String × JVal))
    (hk1 : (obj1.map Prod.fst).Nodup)
    (h : (obj1.map normPair).Perm (obj2.map normPair)) :
    SimpleCache.generateKey obj1 = SimpleCache.generateKey obj2 := by
  unfold SimpleCache.generateKey
  rw [sortPairs_map_normPair, sortPairs_map_normPair]
  congr 1
  apply sortPairs_eq_of_perm _ _ h
  have hmap : (obj1.map normPair).map Prod.fst = obj1.map Prod.fst := by
    rw [List.map_map]; rfl
  rw [hmap]; exact hk1

/-- Witness for C6: reordering the parameter names and permuting an
array-valued parameter leaves the key unchanged. -/
theorem generateKey_perm_invariant_witness :
    SimpleCache.generateKey [("b", .arr ["y", "x"]), ("a", .str "v")] =
      SimpleCache.generateKey [("a", .str "v"), ("b", .arr ["x", "y"])] :=
  generateKey_perm_invariant _ _ (by decide) (by decide)

/-! ## The hitRate statistic (C9) -/

/-- C9 counterexample: the claim says `getStats` reports `hitRate` equal
to the ratio `hits / (hits + misses)`, but the source reports
`(hits / (hits + misses) * 100).toFixed(2)` with a percent sign: for one
hit and two misses the report is the string `33.33%`, while the ratio is
`1/3` — and neither `33.33` nor `0.3333` equals `1/3`. -/
theorem hitRate_not_equal_to_ratio :
    (SimpleCache.getStats (⟨[], 10, ⟨1, 2, 0, 0⟩⟩ : SimpleCache String)).hitRate = "33.33%" ∧
      ((3333 : ℚ) / 10000 ≠ 1 / 3) ∧ ((3333 : ℚ) / 100 ≠ 1 / 3) := by
  refine ⟨by decide, ?_, ?_⟩ <;> norm_num

/-- C9 (amended): `getStats` reports `hitRate` as a percentage string —
`hits / (hits + misses) * 100` rounded to two decimals with `%` appended —
whose hundredths value divided by 10000 is within `1/20000` of the true
ratio `hits / (hits + misses)`, and the string `0%` when no lookups have
occurred. -/
theorem getStats_hitRate_rounded_percentage {V : Type} (c : SimpleCache V) :
    (c.stats.hits + c.stats.misses = 0 → c.getStats.hitRate = "0%") ∧
    (0 < c.stats.hits + c.stats.misses →
       c.getStats.hitRate =
           toString (hitRateCent c.stats.hits c.stats.misses / 100) ++ "." ++
             pad2 (hitRateCent c.stats.hits c.stats.misses % 100) ++ "%" ∧
         |(hitRateCent c.stats.hits c.stats.misses : ℚ) / 10000 -
           (c.stats.hits : ℚ) / ((c.stats.hits : ℚ) + (c.stats.misses : ℚ))| ≤ 1 / 20000) := by
  constructor
  · intro h0
    simp [SimpleCache.getStats, hitRateStr, h0]
  · intro hpos
    constructor
    · simp [SimpleCache.getStats, hitRateStr, hpos]
    · set h := c.stats.hits with hh
      set m := c.stats.misses with hm
      set t := h + m with ht
      set cent := hitRateCent h m with hcent
      set r := (20000 * h + t) % (2 * t) with hrem
      have hdiv : 2 * t * cent + r = 20000 * h + t := by
        rw [hcent, hrem, hitRateCent, ← ht]
        exact Nat.div_add_mod (20000 * h + t) (2 * t)
      have hrlt : r < 2 * t := Nat.mod_lt _ (by omega)
      have htq : (0 : ℚ) < (t : ℚ) := by exact_mod_cast hpos
      have hQ : 2 * (t : ℚ) * (cent : ℚ) + (r : ℚ) = 20000 * (h : ℚ) + (t : ℚ) := by
        exact_mod_cast hdiv
      have hrQ : (r : ℚ) < 2 * (t : ℚ) := by exact_mod_cast hrlt
      have hr0 : (0 : ℚ) ≤ (r : ℚ) := by positivity
      have hcast : (h : ℚ) + (m : ℚ) = (t : ℚ) := by
        rw [ht]; push_cast; ring
      rw [show (c.stats.hits : ℚ) = (h : ℚ) from rfl,
        show (c.stats.misses : ℚ) = (m : ℚ) from rfl, hcast]
      have key : (cent : ℚ) / 10000 - (h : ℚ) / (t : ℚ) =
          ((t : ℚ) - (r : ℚ)) / (20000 * (t : ℚ)) := by
        field_simp
        ring_nf
        nlinarith [hQ]
      rw [key, abs_div, abs_of_pos (by positivity : (0 : ℚ) < 20000 * (t : ℚ)),
        div_le_iff₀ (by positivity : (0 : ℚ) < 20000 * (t : ℚ))]
      have habs : |(t : ℚ) - (r : ℚ)| ≤ (t : ℚ) := by
        rw [abs_le]; constructor <;> linarith
      calc |(t : ℚ) - (r : ℚ)| ≤ (t : ℚ) := habs
        _ = 1 / 20000 * (20000 * (t : ℚ)) := by ring

/-- Witness for C9's amended theorem: with no lookups the reported rate is
the string `0%`. -/
theorem getStats_hitRate_rounded_percentage_witness :
    (SimpleCache.getStats (⟨[], 10, ⟨0, 0, 0, 0⟩⟩ : SimpleCache String)).hitRate = "0%" :=
  (getStats_hitRate_rounded_percentage _).1 rfl

/-! ## The in-memory queue fallback does not retry (C7) -/

/-- The claimed scenario's processor: throws on its first two invocations
(`fail-1`, `fail-2`) and succeeds on the third. -/
def throwsTwiceProc : Nat → Except String Unit :=
  fun i => if i = 0 then .error "fail-1" else if i = 1 then .error "fail-2" else .ok ()

/-- C7 counterexample: the claim says that in both queue modes a throwing
processor is retried up to the configured attempt count, so that the
throws-twice-then-succeeds processor ends `Completed` under a budget of 3.
In the in-process fallback mode, however, `processInMemoryJob` invokes the
processor exactly once and records `failed` with the first error — the
retry budget never comes into play, the job is not `Completed`, and the
error carried is the first, not the second. -/
theorem inMemoryJob_not_retried :
    (processInMemoryJob [("mem-1", ⟨"pending", none⟩)] "mem-1" throwsTwiceProc).1 =
      [("mem-1", ⟨"failed", some "fail-1"⟩)] ∧
    (processInMemoryJob [("mem-1", ⟨"pending", none⟩)] "mem-1" throwsTwiceProc).2 = 1 := by
  constructor <;> rfl

/-- C7 (amended): in the Bull mode the retry policy (`attempts: 3`,
exponential backoff) is configured on the external queue, which performs
the retries; in the in-process fallback mode the processor of a submitted
job is invoked exactly once — on success the job is recorded `complete`,
and on a throw it is recorded `failed` carrying that (first) error, with
no retry regardless of any budget. -/
theorem inMemoryJob_single_invocation (jobs : List (String × MemJob)) (jobId : String)
    (processor : Nat → Except String Unit) (j : MemJob)
    (hj : jobGet jobId jobs = some j) :
    (processInMemoryJob jobs jobId processor).2 = 1 ∧
    (processor 0 = .ok () →
       (processInMemoryJob jobs jobId processor).1 =
         jobPut jobId ⟨"complete", none⟩ jobs) ∧
    (∀ m, processor 0 = .error m →
       (processInMemoryJob jobs jobId processor).1 =
         jobPut jobId ⟨"failed", some m⟩ jobs) := by
  refine ⟨?_, ?_, ?_⟩
  · match h0 : processor 0 with
    | .ok u => simp [processInMemoryJob, hj, h0]
    | .error m => simp [processInMemoryJob, hj, h0]
  · intro hok
    simp [processInMemoryJob, hj, hok]
  · intro m herr
    simp [processInMemoryJob, hj, herr]

/-- Witness for C7's amended theorem: a pending job whose processor
throws `boom` is recorded `failed` with that error after one invocation. -/
theorem inMemoryJob_single_invocation_witness :
    (processInMemoryJob [("mem-1", ⟨"pending", none⟩)] "mem-1"
        (fun _ => .error "boom")).2 = 1 ∧
    (processInMemoryJob [("mem-1", ⟨"pending", none⟩)] "mem-1"
        (fun _ => .error "boom")).1 = [("mem-1", ⟨"failed", some "boom"⟩)] := by
  have h := inMemoryJob_single_invocation [("mem-1", ⟨"pending", none⟩)] "mem-1"
    (fun _ => .error "boom") ⟨"pending", none⟩ rfl
  exact ⟨h.1, by rw [h.2.2 "boom" rfl]; rfl⟩

/-! ## Event bookkeeping for the streaming pipeline (C5, C8) -/

/-- Is this a `name` field event? -/
def isNameEv : SEvent → Bool
  | .nameEv _ => true
  | _ => false

/-- Is this a `description` field event? -/
def isDescriptionEv : SEvent → Bool
  | .descriptionEv _ => true
  | _ => false

/-- Is this an `ingredients` field event? -/
def isIngredientsEv : SEvent → Bool
  | .ingredientsEv _ => true
  | _ => false

/-- Is this an `instructions` field event? -/
def isInstructionsEv : SEvent → Bool
  | .instructionsEv _ => true
  | _ => false

/-- Is this a `tip` field event? -/
def isTipEv : SEvent → Bool
  | .tipEv _ => true
  | _ => false

/-- Is this a `health` field event? -/
def isHealthEv : SEvent → Bool
  | .healthEv _ _ => true
  | _ => false

/-- Is this a terminal event (the final `done` on success or `error` on
failure)? -/
def isTerminalEv : SEvent → Bool
  | .doneEv _ => true
  | .errorEv _ => true
  | _ => false

/-- Number of events satisfying `p`. -/
def countEv (p : SEvent → Bool) (evs : List SEvent) : Nat := (evs.filter p).length

lemma countEv_append (p : SEvent → Bool) (l1 l2 : List SEvent) :
    countEv p (l1 ++ l2) = countEv p l1 + countEv p l2 := by
  simp [countEv, List.filter_append]

lemma countEv_eq_zero_iff (p : SEvent → Bool) (l : List SEvent) :
    countEv p l = 0 ↔ ∀ e ∈ l, p e = false := by
  simp [countEv, List.length_eq_zero, List.filter_eq_nil_iff]

lemma emit1_flag_true {α : Type} (v? : Option α) (mk : α → SEvent) :
    emit1 v? true mk = ([], true) := by
  cases v? <;> simp [emit1]

lemma emit1_snd_false {α : Type} (v? : Option α) (flag : Bool) (mk : α → SEvent)
    (h : (emit1 v? flag mk).2 = false) : (emit1 v? flag mk).1 = [] ∧ flag = false := by
  cases v? <;> cases flag <;> simp_all [emit1]

lemma emit1_count_le {α : Type} (v? : Option α) (flag : Bool) (mk : α → SEvent)
    (p : SEvent → Bool) : countEv p (emit1 v? flag mk).1 ≤ 1 := by
  cases v? with
  | none => simp [emit1, countEv]
  | some v =>
      cases flag with
      | true => simp [emit1, countEv]
      | false =>
          simp only [emit1, countEv]
          cases hp : p (mk v) <;> simp [List.filter, hp]

lemma emit1_count_other {α : Type} (v? : Option α) (flag : Bool) (mk : α → SEvent)
    (p : SEvent → Bool) (hmk : ∀ v, p (mk v) = false) :
    countEv p (emit1 v? flag mk).1 = 0 := by
  cases v? with
  | none => simp [emit1, countEv]
  | some v =>
      cases flag with
      | true => simp [emit1, countEv]
      | false => simp [emit1, countEv, List.filter, hmk v]

/-- The body of `streamStep` on a nonempty chunk, written out. -/
lemma streamStep_ne (buf : String) (f : Flags) (chunk : String) (hc : ¬ chunk = "") :
    streamStep buf f chunk =
      (buf ++ chunk,
       ⟨(emit1 (tryParsePartialRecipe (buf ++ chunk)).name f.name SEvent.nameEv).2,
        (emit1 (tryParsePartialRecipe (buf ++ chunk)).description f.description
          SEvent.descriptionEv).2,
        (emit1 (match (tryParsePartialRecipe (buf ++ chunk)).ingredients with
           | some l => if 0 < l.length then some l else none
           | none => none) f.ingredients SEvent.ingredientsEv).2,
        (emit1 (match (tryParsePartialRecipe (buf ++ chunk)).instructions with
           | some l => if 0 < l.length then some l else none
           | none => none) f.instructions SEvent.instructionsEv).2,
        (emit1 (tryParsePartialRecipe (buf ++ chunk)).tip f.tip SEvent.tipEv).2,
        (emit1 (match (tryParsePartialRecipe (buf ++ chunk)).healthRating with
           | some n => if n ≠ 0 then some (n, (tryParsePartialRecipe (buf ++ chunk)).healthNotes)
                       else none
           | none => none) f.healthRating (fun x => SEvent.healthEv x.1 x.2)).2⟩,
       (emit1 (tryParsePartialRecipe (buf ++ chunk)).name f.name SEvent.nameEv).1 ++
       (emit1 (tryParsePartialRecipe (buf ++ chunk)).description f.description
         SEvent.descriptionEv).1 ++
       (emit1 (match (tryParsePartialRecipe (buf ++ chunk)).ingredients with
          | some l => if 0 < l.length then some l else none
          | none => none) f.ingredients SEvent.ingredientsEv).1 ++
       (emit1 (match (tryParsePartialRecipe (buf ++ chunk)).instructions with
          | some l => if 0 < l.length then some l else none
          | none => none) f.instructions SEvent.instructionsEv).1 ++
       (emit1 (tryParsePartialRecipe (buf ++ chunk)).tip f.tip SEvent.tipEv).1 ++
       (emit1 (match (tryParsePartialRecipe (buf ++ chunk)).healthRating with
          | some n => if n ≠ 0 then some (n, (tryParsePartialRecipe (buf ++ chunk)).healthNotes)
                      else none
          | none => none) f.healthRating (fun x => SEvent.healthEv x.1 x.2)).1) := by
  simp only [streamStep, if_neg hc]

lemma streamStep_spec_name (buf : String) (f : Flags) (chunk : String) :
    (f.name = true → countEv isNameEv (streamStep buf f chunk).2.2 = 0 ∧
       (streamStep buf f chunk).2.1.name = true) ∧
    countEv isNameEv (streamStep buf f chunk).2.2 ≤ 1 ∧
    ((streamStep buf f chunk).2.1.name = false →
       countEv isNameEv (streamStep buf f chunk).2.2 = 0) := by
  by_cases hc : chunk = ""
  · simp [streamStep, hc, countEv]
  · rw [streamStep_ne buf f chunk hc]
    dsimp only
    simp only [countEv_append]
    rw [emit1_count_other _ _ SEvent.descriptionEv isNameEv (fun _ => rfl),
        emit1_count_other _ _ SEvent.ingredientsEv isNameEv (fun _ => rfl),
        emit1_count_other _ _ SEvent.instructionsEv isNameEv (fun _ => rfl),
        emit1_count_other _ _ SEvent.tipEv isNameEv (fun _ => rfl),
        emit1_count_other _ _ (fun x : Nat × Option String => SEvent.healthEv x.1 x.2)
          isNameEv (fun _ => rfl)]
    refine ⟨?_, ?_, ?_⟩
    · intro hf
      rw [hf, emit1_flag_true]
      simp [countEv]
    · have := emit1_count_le (tryParsePartialRecipe (buf ++ chunk)).name f.name
        SEvent.nameEv isNameEv
      omega
    · intro hflag
      obtain ⟨hev, _⟩ := emit1_snd_false _ _ _ hflag
      rw [hev]
      simp [countEv]

lemma streamStep_spec_description (buf : String) (f : Flags) (chunk : String) :
    (f.description = true → countEv isDescriptionEv (streamStep buf f chunk).2.2 = 0 ∧
       (streamStep buf f chunk).2.1.description = true) ∧
    countEv isDescriptionEv (streamStep buf f chunk).2.2 ≤ 1 ∧
    ((streamStep buf f chunk).2.1.description = false →
       countEv isDescriptionEv (streamStep buf f chunk).2.2 = 0) := by
  by_cases hc : chunk = ""
  · simp [streamStep, hc, countEv]
  · rw [streamStep_ne buf f chunk hc]
    dsimp only
    simp only [countEv_append]
    rw [emit1_count_other _ _ SEvent.nameEv isDescriptionEv (fun _ => rfl),
        emit1_count_other _ _ SEvent.ingredientsEv isDescriptionEv (fun _ => rfl),
        emit1_count_other _ _ SEvent.instructionsEv isDescriptionEv (fun _ => rfl),
        emit1_count_other _ _ SEvent.tipEv isDescriptionEv (fun _ => rfl),
        emit1_count_other _ _ (fun x : Nat × Option String => SEvent.healthEv x.1 x.2)
          isDescriptionEv (fun _ => rfl)]
    refine ⟨?_, ?_, ?_⟩
    · intro hf
      rw [hf, emit1_flag_true]
      simp [countEv]
    · simpa using emit1_count_le _ _ _ isDescriptionEv
    · intro hflag
      obtain ⟨hev, _⟩ := emit1_snd_false _ _ _ hflag
      rw [hev]
      simp [countEv]

lemma streamStep_spec_ingredients (buf : String) (f : Flags) (chunk : String) :
    (f.ingredients = true → countEv isIngredientsEv (streamStep buf f chunk).2.2 = 0 ∧
       (streamStep buf f chunk).2.1.ingredients = true) ∧
    countEv isIngredientsEv (streamStep buf f chunk).2.2 ≤ 1 ∧
    ((streamStep buf f chunk).2.1.ingredients = false →
       countEv isIngredientsEv (streamStep buf f chunk).2.2 = 0) := by
  by_cases hc : chunk = ""
  · simp [streamStep, hc, countEv]
  · rw [streamStep_ne buf f chunk hc]
    dsimp only
    simp only [countEv_append]
    rw [emit1_count_other _ _ SEvent.nameEv isIngredientsEv (fun _ => rfl),
        emit1_count_other _ _ SEvent.descriptionEv isIngredientsEv (fun _ => rfl),
        emit1_count_other _ _ SEvent.instructionsEv isIngredientsEv (fun _ => rfl),
        emit1_count_other _ _ SEvent.tipEv isIngredientsEv (fun _ => rfl),
        emit1_count_other _ _ (fun x : Nat × Option String => SEvent.healthEv x.1 x.2)
          isIngredientsEv (fun _ => rfl)]
    refine ⟨?_, ?_, ?_⟩
    · intro hf
      rw [hf, emit1_flag_true]
      simp [countEv]
    · simpa using emit1_count_le _ _ _ isIngredientsEv
    · intro hflag
      obtain ⟨hev, _⟩ := emit1_snd_false _ _ _ hflag
      rw [hev]
      simp [countEv]

lemma streamStep_spec_instructions (buf : String) (f : Flags) (chunk : String) :
    (f.instructions = true → countEv isInstructionsEv (streamStep buf f chunk).2.2 = 0 ∧
       (streamStep buf f chunk).2.1.instructions = true) ∧
    countEv isInstructionsEv (streamStep buf f chunk).2.2 ≤ 1 ∧
    ((streamStep buf f chunk).2.1.instructions = false →
       countEv isInstructionsEv (streamStep buf f chunk).2.2 = 0) := by
  by_cases hc : chunk = ""
  · simp [streamStep, hc, countEv]
  · rw [streamStep_ne buf f chunk hc]
    dsimp only
    simp only [countEv_append]
    rw [emit1_count_other _ _ SEvent.nameEv isInstructionsEv (fun _ => rfl),
        emit1_count_other _ _ SEvent.descriptionEv isInstructionsEv (fun _ => rfl),
        emit1_count_other _ _ SEvent.ingredientsEv isInstructionsEv (fun _ => rfl),
        emit1_count_other _ _ SEvent.tipEv isInstructionsEv (fun _ => rfl),
        emit1_count_other _ _ (fun x : Nat × Option String => SEvent.healthEv x.1 x.2)
          isInstructionsEv (fun _ => rfl)]
    refine ⟨?_, ?_, ?_⟩
    · intro hf
      rw [hf, emit1_flag_true]
      simp [countEv]
    · simpa using emit1_count_le _ _ _ isInstructionsEv
    · intro hflag
      obtain ⟨hev, _⟩ := emit1_snd_false _ _ _ hflag
      rw [hev]
      simp [countEv]

lemma streamStep_spec_tip (buf : String) (f : Flags) (chunk : String) :
    (f.tip = true → countEv isTipEv (streamStep buf f chunk).2.2 = 0 ∧
       (streamStep buf f chunk).2.1.tip = true) ∧
    countEv isTipEv (streamStep buf f chunk).2.2 ≤ 1 ∧
    ((streamStep buf f chunk).2.1.tip = false →
       countEv isTipEv (streamStep buf f chunk).2.2 = 0) := by
  by_cases hc : chunk = ""
  · simp [streamStep, hc, countEv]
  · rw [streamStep_ne buf f chunk hc]
    dsimp only
    simp only [countEv_append]
    rw [emit1_count_other _ _ SEvent.nameEv isTipEv (fun _ => rfl),
        emit1_count_other _ _ SEvent.descriptionEv isTipEv (fun _ => rfl),
        emit1_count_other _ _ SEvent.ingredientsEv isTipEv (fun _ => rfl),
        emit1_count_other _ _ SEvent.instructionsEv isTipEv (fun _ => rfl),
        emit1_count_other _ _ (fun x : Nat × Option String => SEvent.healthEv x.1 x.2)
          isTipEv (fun _ => rfl)]
    refine ⟨?_, ?_, ?_⟩
    · intro hf
      rw [hf, emit1_flag_true]
      simp [countEv]
    · simpa using emit1_count_le _ _ _ isTipEv
    · intro hflag
      obtain ⟨hev, _⟩ := emit1_snd_false _ _ _ hflag
      rw [hev]
      simp [countEv]

lemma streamStep_spec_health (buf : String) (f : Flags) (chunk : String) :
    (f.healthRating = true → countEv isHealthEv (streamStep buf f chunk).2.2 = 0 ∧
       (streamStep buf f chunk).2.1.healthRating = true) ∧
    countEv isHealthEv (streamStep buf f chunk).2.2 ≤ 1 ∧
    ((streamStep buf f chunk).2.1.healthRating = false →
       countEv isHealthEv (streamStep buf f chunk).2.2 = 0) := by
  by_cases hc : chunk = ""
  · simp [streamStep, hc, countEv]
  · rw [streamStep_ne buf f chunk hc]
    dsimp only
    simp only [countEv_append]
    rw [emit1_count_other _ _ SEvent.nameEv isHealthEv (fun _ => rfl),
        emit1_count_other _ _ SEvent.descriptionEv isHealthEv (fun _ => rfl),
        emit1_count_other _ _ SEvent.ingredientsEv isHealthEv (fun _ => rfl),
        emit1_count_other _ _ SEvent.instructionsEv isHealthEv (fun _ => rfl),
        emit1_count_other _ _ SEvent.tipEv isHealthEv (fun _ => rfl)]
    refine ⟨?_, ?_, ?_⟩
    · intro hf
      rw [hf, emit1_flag_true]
      simp [countEv]
    · simpa using emit1_count_le _ _ _ isHealthEv
    · intro hflag
      obtain ⟨hev, _⟩ := emit1_snd_false _ _ _ hflag
      rw [hev]
      simp [countEv]

/-- Generic at-most-once invariant of the `for await` loop: if one step
never re-emits a field once its flag is set (and only sets the flag when
emitting), then a whole run emits that field at most once. -/
lemma runChunks_field_spec (p : SEvent → Bool) (getF : Flags → Bool)
    (hstep : ∀ buf f chunk,
        (getF f = true → countEv p (streamStep buf f chunk).2.2 = 0 ∧
           getF (streamStep buf f chunk).2.1 = true) ∧
        countEv p (streamStep buf f chunk).2.2 ≤ 1 ∧
        (getF (streamStep buf f chunk).2.1 = false →
           countEv p (streamStep buf f chunk).2.2 = 0)) :
    ∀ (chunks : List String) (buf : String) (f : Flags),
      (getF f = true → countEv p (runChunks buf f chunks).2.2 = 0 ∧
         getF (runChunks buf f chunks).2.1 = true) ∧
      countEv p (runChunks buf f chunks).2.2 ≤ 1 ∧
      (getF (runChunks buf f chunks).2.1 = false →
         countEv p (runChunks buf f chunks).2.2 = 0) := by
  intro chunks
  induction chunks with
  | nil =>
      intro buf f
      refine ⟨fun hf => ⟨by simp [runChunks, countEv], by simpa [runChunks] using hf⟩,
        by simp [runChunks, countEv], fun _ => by simp [runChunks, countEv]⟩
  | cons c cs ih =>
      intro buf f
      have hs := hstep buf f c
      have hr := ih (streamStep buf f c).1 (streamStep buf f c).2.1
      have hshape : runChunks buf f (c :: cs) =
          ((runChunks (streamStep buf f c).1 (streamStep buf f c).2.1 cs).1,
           (runChunks (streamStep buf f c).1 (streamStep buf f c).2.1 cs).2.1,
           (streamStep buf f c).2.2 ++
             (runChunks (streamStep buf f c).1 (streamStep buf f c).2.1 cs).2.2) := by
        simp only [runChunks]
      rw [hshape]
      dsimp only
      simp only [countEv_append]
      refine ⟨?_, ?_, ?_⟩
      · intro hf
        obtain ⟨h0, hflag⟩ := hs.1 hf
        obtain ⟨h0', hflag'⟩ := hr.1 hflag
        exact ⟨by omega, hflag'⟩
      · by_cases hmid : getF (streamStep buf f c).2.1 = true
        · obtain ⟨h0', _⟩ := hr.1 hmid
          have h1 := hs.2.1
          omega
        · have hmid' : getF (streamStep buf f c).2.1 = false := by
            revert hmid; cases getF (streamStep buf f c).2.1 <;> simp
          have h0 := hs.2.2 hmid'
          have h1 := hr.2.1
          omega
      · intro hlast
        by_cases hmid : getF (streamStep buf f c).2.1 = true
        · obtain ⟨_, hflag'⟩ := hr.1 hmid
          rw [hflag'] at hlast
          cases hlast
        · have hmid' : getF (streamStep buf f c).2.1 = false := by
            revert hmid; cases getF (streamStep buf f c).2.1 <;> simp
          have h0 := hs.2.2 hmid'
          have h0' := hr.2.2 hlast
          omega

/-- The loop only emits field events: for a predicate false on every field
event, one step contributes nothing. -/
lemma streamStep_count_zero (p : SEvent → Bool)
    (h1 : ∀ s, p (SEvent.nameEv s) = false)
    (h2 : ∀ s, p (SEvent.descriptionEv s) = false)
    (h3 : ∀ l, p (SEvent.ingredientsEv l) = false)
    (h4 : ∀ l, p (SEvent.instructionsEv l) = false)
    (h5 : ∀ s, p (SEvent.tipEv s) = false)
    (h6 : ∀ r n, p (SEvent.healthEv r n) = false) :
    ∀ buf f chunk, countEv p (streamStep buf f chunk).2.2 = 0 := by
  intro buf f chunk
  by_cases hc : chunk = ""
  · simp [streamStep, hc, countEv]
  · rw [streamStep_ne buf f chunk hc]
    dsimp only
    simp only [countEv_append]
    rw [emit1_count_other _ _ SEvent.nameEv p h1,
        emit1_count_other _ _ SEvent.descriptionEv p h2,
        emit1_count_other _ _ SEvent.ingredientsEv p h3,
        emit1_count_other _ _ SEvent.instructionsEv p h4,
        emit1_count_other _ _ SEvent.tipEv p h5,
        emit1_count_other _ _ (fun x : Nat × Option String => SEvent.healthEv x.1 x.2) p
          (fun v => h6 v.1 v.2)]

/-- A whole run contributes no events of a non-field kind. -/
lemma runChunks_count_zero (p : SEvent → Bool)
    (h1 : ∀ s, p (SEvent.nameEv s) = false)
    (h2 : ∀ s, p (SEvent.descriptionEv s) = false)
    (h3 : ∀ l, p (SEvent.ingredientsEv l) = false)
    (h4 : ∀ l, p (SEvent.instructionsEv l) = false)
    (h5 : ∀ s, p (SEvent.tipEv s) = false)
    (h6 : ∀ r n, p (SEvent.healthEv r n) = false) :
    ∀ (chunks : List String) (buf : String) (f : Flags),
      countEv p (runChunks buf f chunks).2.2 = 0 := by
  intro chunks
  induction chunks with
  | nil => intro buf f; simp [runChunks, countEv]
  | cons c cs ih =>
      intro buf f
      have hshape : runChunks buf f (c :: cs) =
          ((runChunks (streamStep buf f c).1 (streamStep buf f c).2.1 cs).1,
           (runChunks (streamStep buf f c).1 (streamStep buf f c).2.1 cs).2.1,
           (streamStep buf f c).2.2 ++
             (runChunks (streamStep buf f c).1 (streamStep buf f c).2.1 cs).2.2) := by
        simp only [runChunks]
      rw [hshape]
      dsimp only
      rw [countEv_append, streamStep_count_zero p h1 h2 h3 h4 h5 h6, ih]

/-- No terminal event is ever emitted inside the fragment loop. -/
lemma runChunks_no_terminal (chunks : List String) (buf : String) (f : Flags) :
    ∀ e ∈ (runChunks buf f chunks).2.2, isTerminalEv e = false :=
  (countEv_eq_zero_iff isTerminalEv _).mp
    (runChunks_count_zero isTerminalEv (fun _ => rfl) (fun _ => rfl) (fun _ => rfl)
      (fun _ => rfl) (fun _ => rfl) (fun _ _ => rfl) chunks buf f)

/-- C8: for every streaming request — any upstream outcome, any result of
the authoritative parse, any image outcome — the event sequence pushed to
the sink ends with a terminal event (`done` carrying the returned recipe on
success, `error` on failure) and no event of any kind follows it; events
are pushed in the order the pipeline produces them (the model's list order
is the push order, with field events in discovery order). -/
theorem stream_terminal_event_is_last (up : UpstreamOutcome)
    (finalParse : String → Option Recipe) (img : ImgOutcome) (freshId : String) :
    ∃ l e, (generateCocktailStream up finalParse img freshId).1 = l ++ [e] ∧
      isTerminalEv e = true ∧ (∀ x ∈ l, isTerminalEv x = false) ∧
      ((∃ r, e = SEvent.doneEv r ∧
          (generateCocktailStream up finalParse img freshId).2 = some r) ∨
       (∃ s, e = SEvent.errorEv s ∧
          (generateCocktailStream up finalParse img freshId).2 = none)) := by
  cases up with
  | createFailed msg =>
      refine ⟨[.statusEv "Starting recipe generation...",
               .statusEv "Consulting our AI mixologist..."], .errorEv msg,
        rfl, rfl, ?_, Or.inr ⟨msg, rfl, rfl⟩⟩
      intro x hx
      simp only [List.mem_cons, List.not_mem_nil, or_false] at hx
      rcases hx with rfl | rfl <;> rfl
  | streamed frags serr =>
      have hfield := runChunks_no_terminal frags "" initFlags
      cases serr with
      | some m =>
          refine ⟨[SEvent.statusEv "Starting recipe generation...",
                   SEvent.statusEv "Consulting our AI mixologist...",
                   SEvent.statusEv "Crafting your perfect cocktail..."] ++
                    (runChunks "" initFlags frags).2.2, .errorEv m,
            rfl, rfl, ?_, Or.inr ⟨m, rfl, rfl⟩⟩
          intro x hx
          rcases List.mem_append.mp hx with hx' | hx'
          · simp only [List.mem_cons, List.not_mem_nil, or_false] at hx'
            rcases hx' with rfl | rfl | rfl <;> rfl
          · exact hfield x hx'
      | none =>
          cases hfp : finalParse (cleanContent (runChunks "" initFlags frags).1) with
          | none =>
              refine ⟨[SEvent.statusEv "Starting recipe generation...",
                       SEvent.statusEv "Consulting our AI mixologist...",
                       SEvent.statusEv "Crafting your perfect cocktail..."] ++
                        (runChunks "" initFlags frags).2.2,
                .errorEv "Failed to parse recipe. Please try again.", ?_, rfl, ?_, ?_⟩
              · simp only [generateCocktailStream, hfp]
              · intro x hx
                rcases List.mem_append.mp hx with hx' | hx'
                · simp only [List.mem_cons, List.not_mem_nil, or_false] at hx'
                  rcases hx' with rfl | rfl | rfl <;> rfl
                · exact hfield x hx'
              · refine Or.inr ⟨_, rfl, ?_⟩
                simp only [generateCocktailStream, hfp]
          | some recipe0 =>
              cases img with
              | genFailed =>
                  refine ⟨[SEvent.statusEv "Starting recipe generation...",
                           SEvent.statusEv "Consulting our AI mixologist...",
                           SEvent.statusEv "Crafting your perfect cocktail..."] ++
                            (runChunks "" initFlags frags).2.2 ++
                          [SEvent.completeEv
                             { recipe0 with cocktailId := some freshId, imageUrl := none },
                           SEvent.statusEv "Recipe complete! Now generating image..."] ++
                          [SEvent.statusEv "Generating cocktail image...",
                           SEvent.imageErrorEv "Failed to generate image"],
                    SEvent.doneEv { recipe0 with cocktailId := some freshId, imageUrl := none },
                    ?_, rfl, ?_, ?_⟩
                  · simp only [generateCocktailStream, hfp, imagePhase]
                  · intro x hx
                    rcases List.mem_append.mp hx with hx'' | hx'
                    · rcases List.mem_append.mp hx'' with hx''' | hx'
                      · rcases List.mem_append.mp hx''' with hx' | hx'
                        · simp only [List.mem_cons, List.not_mem_nil, or_false] at hx'
                          rcases hx' with rfl | rfl | rfl <;> rfl
                        · exact hfield x hx'
                      · simp only [List.mem_cons, List.not_mem_nil, or_false] at hx'
                        rcases hx' with rfl | rfl <;> rfl
                    · simp only [List.mem_cons, List.not_mem_nil, or_false] at hx'
                      rcases hx' with rfl | rfl <;> rfl
                  · refine Or.inl ⟨_, rfl, ?_⟩
                    simp only [generateCocktailStream, hfp, imagePhase]
              | noUrl =>
                  refine ⟨[SEvent.statusEv "Starting recipe generation...",
                           SEvent.statusEv "Consulting our AI mixologist...",
                           SEvent.statusEv "Crafting your perfect cocktail..."] ++
                            (runChunks "" initFlags frags).2.2 ++
                          [SEvent.completeEv
                             { recipe0 with cocktailId := some freshId, imageUrl := none },
                           SEvent.statusEv "Recipe complete! Now generating image..."] ++
                          [SEvent.statusEv "Generating cocktail image..."],
                    SEvent.doneEv { recipe0 with cocktailId := some freshId },
                    ?_, rfl, ?_, ?_⟩
                  · simp only [generateCocktailStream, hfp, imagePhase]
                  · intro x hx
                    rcases List.mem_append.mp hx with hx'' | hx'
                    · rcases List.mem_append.mp hx'' with hx''' | hx'
                      · rcases List.mem_append.mp hx''' with hx' | hx'
                        · simp only [List.mem_cons, List.not_mem_nil, or_false] at hx'
                          rcases hx' with rfl | rfl | rfl <;> rfl
                        · exact hfield x hx'
                      · simp only [List.mem_cons, List.not_mem_nil, or_false] at hx'
                        rcases hx' with rfl | rfl <;> rfl
                    · simp only [List.mem_cons, List.not_mem_nil, or_false] at hx'
                      subst hx'
                      rfl
                  · refine Or.inl ⟨_, rfl, ?_⟩
                    simp only [generateCocktailStream, hfp, imagePhase]
              | uploadFailed =>
                  refine ⟨[SEvent.statusEv "Starting recipe generation...",
                           SEvent.statusEv "Consulting our AI mixologist...",
                           SEvent.statusEv "Crafting your perfect cocktail..."] ++
                            (runChunks "" initFlags frags).2.2 ++
                          [SEvent.completeEv
                             { recipe0 with cocktailId := some freshId, imageUrl := none },
                           SEvent.statusEv "Recipe complete! Now generating image..."] ++
                          [SEvent.statusEv "Generating cocktail image...",
                           SEvent.statusEv "Uploading image...",
                           SEvent.imageErrorEv "Failed to generate image"],
                    SEvent.doneEv { recipe0 with cocktailId := some freshId, imageUrl := none },
                    ?_, rfl, ?_, ?_⟩
                  · simp only [generateCocktailStream, hfp, imagePhase]
                  · intro x hx
                    rcases List.mem_append.mp hx with hx'' | hx'
                    · rcases List.mem_append.mp hx'' with hx''' | hx'
                      · rcases List.mem_append.mp hx''' with hx' | hx'
                        · simp only [List.mem_cons, List.not_mem_nil, or_false] at hx'
                          rcases hx' with rfl | rfl | rfl <;> rfl
                        · exact hfield x hx'
                      · simp only [List.mem_cons, List.not_mem_nil, or_false] at hx'
                        rcases hx' with rfl | rfl <;> rfl
                    · simp only [List.mem_cons, List.not_mem_nil, or_false] at hx'
                      rcases hx' with rfl | rfl | rfl <;> rfl
                  · refine Or.inl ⟨_, rfl, ?_⟩
                    simp only [generateCocktailStream, hfp, imagePhase]
              | ok urls =>
                  refine ⟨[SEvent.statusEv "Starting recipe generation...",
                           SEvent.statusEv "Consulting our AI mixologist...",
                           SEvent.statusEv "Crafting your perfect cocktail..."] ++
                            (runChunks "" initFlags frags).2.2 ++
                          [SEvent.completeEv
                             { recipe0 with cocktailId := some freshId, imageUrl := none },
                           SEvent.statusEv "Recipe complete! Now generating image..."] ++
                          [SEvent.statusEv "Generating cocktail image...",
                           SEvent.statusEv "Uploading image...",
                           SEvent.imageEv urls],
                    SEvent.doneEv { recipe0 with
                      cocktailId := some freshId
                      imageUrl := some urls.medium
                      imageUrls := some urls },
                    ?_, rfl, ?_, ?_⟩
                  · simp only [generateCocktailStream, hfp, imagePhase]
                  · intro x hx
                    rcases List.mem_append.mp hx with hx'' | hx'
                    · rcases List.mem_append.mp hx'' with hx''' | hx'
                      · rcases List.mem_append.mp hx''' with hx' | hx'
                        · simp only [List.mem_cons, List.not_mem_nil, or_false] at hx'
                          rcases hx' with rfl | rfl | rfl <;> rfl
                        · exact hfield x hx'
                      · simp only [List.mem_cons, List.not_mem_nil, or_false] at hx'
                        rcases hx' with rfl | rfl <;> rfl
                    · simp only [List.mem_cons, List.not_mem_nil, or_false] at hx'
                      rcases hx' with rfl | rfl | rfl <;> rfl
                  · refine Or.inl ⟨_, rfl, ?_⟩
                    simp only [generateCocktailStream, hfp, imagePhase]

/-- Events of a field kind in a full stream all come from the fragment
loop, so a bound on the loop bounds the stream. -/
lemma genStream_count_le_one (p : SEvent → Bool)
    (hs : ∀ s, p (SEvent.statusEv s) = false)
    (he : ∀ s, p (SEvent.errorEv s) = false)
    (hcomp : ∀ r, p (SEvent.completeEv r) = false)
    (hdone : ∀ r, p (SEvent.doneEv r) = false)
    (himg : ∀ u, p (SEvent.imageEv u) = false)
    (himgE : ∀ s, p (SEvent.imageErrorEv s) = false)
    (hrun : ∀ frags, countEv p (runChunks "" initFlags frags).2.2 ≤ 1)
    (up : UpstreamOutcome) (finalParse : String → Option Recipe)
    (img : ImgOutcome) (freshId : String) :
    countEv p (generateCocktailStream up finalParse img freshId).1 ≤ 1 := by
  have hpre : countEv p [SEvent.statusEv "Starting recipe generation...",
      SEvent.statusEv "Consulting our AI mixologist...",
      SEvent.statusEv "Crafting your perfect cocktail..."] = 0 := by
    simp [countEv, List.filter, hs]
  have himgPhase : ∀ (r : Recipe) (io : ImgOutcome), countEv p (imagePhase r io).1 = 0 := by
    intro r io
    cases io <;> simp [imagePhase, countEv, List.filter, hs, himg, himgE]
  cases up with
  | createFailed msg => simp [generateCocktailStream, countEv, List.filter, hs, he]
  | streamed frags serr =>
      have hfrag := hrun frags
      cases serr with
      | some m =>
          simp only [generateCocktailStream]
          rw [countEv_append, countEv_append]
          have h2 : countEv p [SEvent.errorEv m] = 0 := by simp [countEv, List.filter, he]
          omega
      | none =>
          cases hfp : finalParse (cleanContent (runChunks "" initFlags frags).1) with
          | none =>
              simp only [generateCocktailStream, hfp]
              rw [countEv_append, countEv_append]
              have h2 : countEv p [SEvent.errorEv "Failed to parse recipe. Please try again."]
                  = 0 := by simp [countEv, List.filter, he]
              omega
          | some recipe0 =>
              simp only [generateCocktailStream, hfp]
              rw [countEv_append, countEv_append, countEv_append, countEv_append]
              have h2 : countEv p [SEvent.completeEv
                  { recipe0 with cocktailId := some freshId, imageUrl := none },
                  SEvent.statusEv "Recipe complete! Now generating image..."] = 0 := by
                simp [countEv, List.filter, hs, hcomp]
              have h3 := himgPhase { recipe0 with cocktailId := some freshId } img
              have h4 : countEv p [SEvent.doneEv
                  (imagePhase { recipe0 with cocktailId := some freshId } img).2] = 0 := by
                simp [countEv, List.filter, hdone]
              omega

/-- C5: in the streaming pipeline each recognized field (name,
description, ingredients, instructions, tip, healthRating) is emitted to
the sink at most once per request, whatever the upstream fragments, final
parse and image outcome; and for the fragment sequence
`["\x7b\"name\":\"Da", "iquiri\",\"tip\":\"shake", "well\"\x7d"]` exactly one
`name` event is pushed, with value `Daiquiri`, and it is pushed before the
terminal event. -/
theorem stream_fields_emitted_at_most_once :
    (∀ (up : UpstreamOutcome) (finalParse : String → Option Recipe) (img : ImgOutcome)
        (freshId : String),
        countEv isNameEv (generateCocktailStream up finalParse img freshId).1 ≤ 1 ∧
        countEv isDescriptionEv (generateCocktailStream up finalParse img freshId).1 ≤ 1 ∧
        countEv isIngredientsEv (generateCocktailStream up finalParse img freshId).1 ≤ 1 ∧
        countEv isInstructionsEv (generateCocktailStream up finalParse img freshId).1 ≤ 1 ∧
        countEv isTipEv (generateCocktailStream up finalParse img freshId).1 ≤ 1 ∧
        countEv isHealthEv (generateCocktailStream up finalParse img freshId).1 ≤ 1) ∧
    (∀ (finalParse : String → Option Recipe) (img : ImgOutcome) (freshId : String),
        (generateCocktailStream
            (.streamed ["\x7b\"name\":\"Da", "iquiri\",\"tip\":\"shake", "well\"\x7d"] none)
            finalParse img freshId).1.filter isNameEv = [SEvent.nameEv "Daiquiri"] ∧
        ∃ l e, (generateCocktailStream
            (.streamed ["\x7b\"name\":\"Da", "iquiri\",\"tip\":\"shake", "well\"\x7d"] none)
            finalParse img freshId).1 = l ++ [e] ∧
          isTerminalEv e = true ∧ SEvent.nameEv "Daiquiri" ∈ l) := by
  constructor
  · intro up finalParse img freshId
    refine ⟨?_, ?_, ?_, ?_, ?_, ?_⟩
    · exact genStream_count_le_one isNameEv (fun _ => rfl) (fun _ => rfl) (fun _ => rfl)
        (fun _ => rfl) (fun _ => rfl) (fun _ => rfl)
        (fun frags =>
          (runChunks_field_spec isNameEv Flags.name streamStep_spec_name frags "" initFlags).2.1)
        up finalParse img freshId
    · exact genStream_count_le_one isDescriptionEv (fun _ => rfl) (fun _ => rfl) (fun _ => rfl)
        (fun _ => rfl) (fun _ => rfl) (fun _ => rfl)
        (fun frags =>
          (runChunks_field_spec isDescriptionEv Flags.description streamStep_spec_description
            frags "" initFlags).2.1)
        up finalParse img freshId
    · exact genStream_count_le_one isIngredientsEv (fun _ => rfl) (fun _ => rfl) (fun _ => rfl)
        (fun _ => rfl) (fun _ => rfl) (fun _ => rfl)
        (fun frags =>
          (runChunks_field_spec isIngredientsEv Flags.ingredients streamStep_spec_ingredients
            frags "" initFlags).2.1)
        up finalParse img freshId
    · exact genStream_count_le_one isInstructionsEv (fun _ => rfl) (fun _ => rfl) (fun _ => rfl)
        (fun _ => rfl) (fun _ => rfl) (fun _ => rfl)
        (fun frags =>
          (runChunks_field_spec isInstructionsEv Flags.instructions streamStep_spec_instructions
            frags "" initFlags).2.1)
        up finalParse img freshId
    · exact genStream_count_le_one isTipEv (fun _ => rfl) (fun _ => rfl) (fun _ => rfl)
        (fun _ => rfl) (fun _ => rfl) (fun _ => rfl)
        (fun frags =>
          (runChunks_field_spec isTipEv Flags.tip streamStep_spec_tip frags "" initFlags).2.1)
        up finalParse img freshId
    · exact genStream_count_le_one isHealthEv (fun _ => rfl) (fun _ => rfl) (fun _ => rfl)
        (fun _ => rfl) (fun _ => rfl) (fun _ => rfl)
        (fun frags =>
          (runChunks_field_spec isHealthEv Flags.healthRating streamStep_spec_health
            frags "" initFlags).2.1)
        up finalParse img freshId
  · intro finalParse img freshId
    have hrun22 : (runChunks "" initFlags
        ["\x7b\"name\":\"Da", "iquiri\",\"tip\":\"shake", "well\"\x7d"]).2.2 =
        [SEvent.nameEv "Daiquiri", SEvent.tipEv "shakewell"] := by decide
    cases hfp : finalParse (cleanContent (runChunks "" initFlags
        ["\x7b\"name\":\"Da", "iquiri\",\"tip\":\"shake", "well\"\x7d"]).1) with
    | none =>
        constructor
        · simp only [generateCocktailStream, hfp, hrun22]
          rfl
        · refine ⟨[SEvent.statusEv "Starting recipe generation...",
                   SEvent.statusEv "Consulting our AI mixologist...",
                   SEvent.statusEv "Crafting your perfect cocktail..."] ++
                    [SEvent.nameEv "Daiquiri", SEvent.tipEv "shakewell"],
            SEvent.errorEv "Failed to parse recipe. Please try again.", ?_, rfl, ?_⟩
          · simp only [generateCocktailStream, hfp, hrun22]
          · simp
    | some recipe0 =>
        constructor
        · simp only [generateCocktailStream, hfp, hrun22]
          cases img <;>
            simp [imagePhase, List.filter_append, List.filter, isNameEv]
        · refine ⟨[SEvent.statusEv "Starting recipe generation...",
                   SEvent.statusEv "Consulting our AI mixologist...",
                   SEvent.statusEv "Crafting your perfect cocktail..."] ++
                    [SEvent.nameEv "Daiquiri", SEvent.tipEv "shakewell"] ++
                  [SEvent.completeEv
                     { recipe0 with cocktailId := some freshId, imageUrl := none },
                   SEvent.statusEv "Recipe complete! Now generating image..."] ++
                  (imagePhase { recipe0 with cocktailId := some freshId } img).1,
            SEvent.doneEv (imagePhase { recipe0 with cocktailId := some freshId } img).2,
            ?_, rfl, ?_⟩
          · simp only [generateCocktailStream, hfp, hrun22]
          · simp

end CocktailBE
